import Mathlib

/-! Pixel-neighborhood engine: accessor, boundary condition, operator filter.

A shallow embedding of `itkVectorImageNeighborhoodAccessorFunctor.h` and of the
interface of `itkNeighborhoodOperatorImageFilter.h`.

Conventions of the embedding

* A pointer to `InternalPixelType` is an `Int`: an address counted in scalar
  elements, so that C++ pointer arithmetic is integer arithmetic.  Pointer
  differences and their products are not wrapped: for pointers into one buffer
  they stay within the range of `ptrdiff_t`.
* A pixel buffer is a `Memory`: the address of its first scalar and the
  scalars it holds.  Reading or writing an address outside the buffer is
  undefined behaviour in C++; here it yields `none`.
* `unsigned int` values are `Nat` below `2 ^ 32`; unsigned subtraction is
  written out with `% 2 ^ 32`.
* A `PixelType` of a vector image (a variable-length vector) is the list of
  its scalar components.
-/

namespace itk

/-! ## Memory -/

/-- A contiguous buffer of scalars: `base` is the address of `cells[0]`. -/
structure Memory (α : Type) where
  base : Int
  cells : List α
deriving DecidableEq

/-- Dereference of the pointer `a` for reading. -/
def Memory.read {α : Type} (m : Memory α) (a : Int) : Option α :=
  if m.base ≤ a then m.cells[(a - m.base).toNat]? else none

/-- Assignment through the pointer `a`. -/
def Memory.write {α : Type} (m : Memory α) (a : Int) (x : α) : Option (Memory α) :=
  if m.base ≤ a ∧ a < m.base + m.cells.length then
    some { m with cells := m.cells.set (a - m.base).toNat x }
  else none

/-- The `n` consecutive scalars starting at the pointer `a`
(what `PixelType(a, n)` refers to). -/
def Memory.readN {α : Type} (m : Memory α) (a : Int) : Nat → Option (List α)
  | 0 => some []
  | n + 1 =>
    match m.read a, m.readN (a + 1) n with
    | some x, some xs => some (x :: xs)
    | _, _ => none

/-! ## Neighborhood container -/

/-- Modelled from the spec: the `Neighborhood` container (`itkNeighborhood.h`
is not among the sources): a fixed hyper-rectangular window given by its
radius per axis and the ordered sequence of its entries. -/
structure Neighborhood (T : Type) where
  radius : List Nat
  buffer : List T
deriving DecidableEq

/-! ## VectorImageNeighborhoodAccessorFunctor -/

/-- The private members of `VectorImageNeighborhoodAccessorFunctor`.
`m_Begin` is left uninitialised by both constructors: `none` until `SetBegin`. -/
structure VectorImageNeighborhoodAccessorFunctor where
  m_VectorLength : Nat
  m_OffsetMultiplier : Nat
  m_Begin : Option Int
deriving DecidableEq

namespace VectorImageNeighborhoodAccessorFunctor

/-- Constructor `VectorImageNeighborhoodAccessorFunctor( VectorLengthType length )`:
`m_VectorLength( length ), m_OffsetMultiplier( length -1 )` in `unsigned int`. -/
def construct (length : Nat) : VectorImageNeighborhoodAccessorFunctor :=
  { m_VectorLength := length % 2 ^ 32
    m_OffsetMultiplier := (length % 2 ^ 32 + (2 ^ 32 - 1)) % 2 ^ 32
    m_Begin := none }

/-- Constructor `VectorImageNeighborhoodAccessorFunctor()`. -/
def constructDefault : VectorImageNeighborhoodAccessorFunctor :=
  { m_VectorLength := 0, m_OffsetMultiplier := 0, m_Begin := none }

/-- Member `SetBegin( begin )`. -/
def SetBegin (self : VectorImageNeighborhoodAccessorFunctor) (begin : Int) :
    VectorImageNeighborhoodAccessorFunctor :=
  { self with m_Begin := some begin }

/-- Member `Get( pixelPointer )`:
`PixelType(pixelPointer+(pixelPointer-m_Begin)*m_OffsetMultiplier, m_VectorLength)`. -/
def Get {α : Type} (self : VectorImageNeighborhoodAccessorFunctor) (mem : Memory α)
    (pixelPointer : Int) : Option (List α) :=
  match self.m_Begin with
  | none => none
  | some m_Begin =>
    mem.readN (pixelPointer + (pixelPointer - m_Begin) * self.m_OffsetMultiplier)
      self.m_VectorLength

/-- The loop `for( i=0; i< m_VectorLength; i++ ) truePixelPointer[i] = p[i];`
of `Set`, run for `i = 0, …, n - 1`. -/
def SetLoop {α : Type} (truePixelPointer : Int) (p : List α) :
    Nat → Memory α → Option (Memory α)
  | 0, mem => some mem
  | n + 1, mem =>
    match SetLoop truePixelPointer p n mem with
    | none => none
    | some mem1 =>
      match p[n]? with
      | none => none
      | some x => mem1.write (truePixelPointer + n) x

/-- Member `Set( pixelPointer, p )`. -/
def Set {α : Type} (self : VectorImageNeighborhoodAccessorFunctor) (mem : Memory α)
    (pixelPointer : Int) (p : List α) : Option (Memory α) :=
  match self.m_Begin with
  | none => none
  | some m_Begin =>
    SetLoop (pixelPointer + (pixelPointer - m_Begin) * self.m_OffsetMultiplier) p
      self.m_VectorLength mem

/-- Member `SetVectorLength( length )`. -/
def SetVectorLength (self : VectorImageNeighborhoodAccessorFunctor) (length : Nat) :
    VectorImageNeighborhoodAccessorFunctor :=
  { self with
    m_VectorLength := length % 2 ^ 32
    m_OffsetMultiplier := (length % 2 ^ 32 + (2 ^ 32 - 1)) % 2 ^ 32 }

/-- Member `GetVectorLength()`. -/
def GetVectorLength (self : VectorImageNeighborhoodAccessorFunctor) : Nat :=
  self.m_VectorLength

end VectorImageNeighborhoodAccessorFunctor

/-- The call operator of an `ImageBoundaryCondition` over scalars `α`:
`operator()(point_index, boundary_offset, data, accessor)`; the pixel memory it
reads through the accessor is passed explicitly. -/
abbrev ImageBoundaryCondition (α : Type) : Type :=
  List Int → List Int → Neighborhood Int → VectorImageNeighborhoodAccessorFunctor →
    Memory α → Option (List α)

/-- Member `BoundaryCondition( point_index, boundary_offset, data, boundaryCondition )`
of the accessor:
`boundaryCondition->operator()(point_index, boundary_offset, data, *this)`. -/
def VectorImageNeighborhoodAccessorFunctor.BoundaryCondition {α : Type}
    (self : VectorImageNeighborhoodAccessorFunctor)
    (point_index boundary_offset : List Int) (data : Neighborhood Int)
    (boundaryCondition : ImageBoundaryCondition α) (mem : Memory α) : Option (List α) :=
  boundaryCondition point_index boundary_offset data self mem

/-! ## Regions, images and windows (external collaborators)

The image container, its region type, the neighborhood iterator and the
boundary-condition classes are not among the sources; they are modelled from
the specification.  Throughout, axis 0 is the fastest-varying axis of every
linear order (buffer layout, window layout, order of the sweep). -/

/-- Modelled from the spec: `ImageRegion` (not among the sources), "an
axis-aligned hyper-rectangle (origin + extent per axis)". -/
structure ImageRegion where
  m_Index : List Int
  m_Size : List Nat
deriving DecidableEq

/-- Modelled from the spec: membership of the grid position `ind` in the
hyper-rectangle of origin `o` and extent `s`. -/
def IsInsideAux : List Int → List Nat → List Int → Bool
  | [], [], [] => true
  | o :: os, s :: ss, i :: is => decide (o ≤ i) && decide (i < o + s) && IsInsideAux os ss is
  | _, _, _ => false

/-- Modelled from the spec: `ImageRegion::IsInside(index)`. -/
def ImageRegion.IsInside (r : ImageRegion) (ind : List Int) : Bool :=
  IsInsideAux r.m_Index r.m_Size ind

/-- Modelled from the spec: the number of grid positions of a region. -/
def ImageRegion.GetNumberOfPixels (r : ImageRegion) : Nat :=
  r.m_Size.prod

/-- Modelled from the spec: the logical (unit-stride) offset of the grid
position `ind` in the dense grid of origin `o` and extent `s`. -/
def ComputeOffsetAux : List Int → List Nat → List Int → Int
  | o :: os, s :: ss, i :: is => (i - o) + (s : Int) * ComputeOffsetAux os ss is
  | _, _, _ => 0

/-- Modelled from the spec: the grid position at logical offset `k` of the
dense grid of origin `o` and extent `s`. -/
def ComputeIndexAux : List Int → List Nat → Nat → List Int
  | o :: os, s :: ss, k => (o + ((k % s : Nat) : Int)) :: ComputeIndexAux os ss (k / s)
  | _, _, _ => []

/-- Modelled from the spec: the grid positions of a region in the order in
which a sweep visits them. -/
def ImageRegion.indices (r : ImageRegion) : List (List Int) :=
  (List.range r.GetNumberOfPixels).map (ComputeIndexAux r.m_Index r.m_Size)

/-- Modelled from the spec: clamping of a grid position into the hyper-rectangle
of origin `o` and extent `s` ("the nearest valid boundary pixel"). -/
def ClampAux : List Int → List Nat → List Int → List Int
  | o :: os, s :: ss, i :: is =>
    (if i < o then o else if o + (s : Int) ≤ i then o + (s : Int) - 1 else i) :: ClampAux os ss is
  | _, _, _ => []

/-- Modelled from the spec: the image container (not among the sources): "a
single contiguous sequence of scalar component values, logically organized as a
dense N-dimensional grid of pixels, each pixel occupying `VectorLength`
consecutive scalar slots". -/
structure Image where
  m_BufferedRegion : ImageRegion
  m_VectorLength : Nat
  m_Buffer : Memory Int
deriving DecidableEq

namespace Image

/-- The buffer holds exactly the pixels of the buffered region, and the
component count fits `unsigned int`. -/
abbrev WellFormed (img : Image) : Prop :=
  1 ≤ img.m_VectorLength ∧ img.m_VectorLength < 2 ^ 32 ∧
  img.m_BufferedRegion.m_Index.length = img.m_BufferedRegion.m_Size.length ∧
  img.m_Buffer.cells.length = img.m_BufferedRegion.GetNumberOfPixels * img.m_VectorLength

/-- The accessor of an image, bound the way the iterators bind it:
`m_NeighborhoodAccessorFunctor.SetBegin( image->GetBufferPointer() )`. -/
def GetNeighborhoodAccessor (img : Image) : VectorImageNeighborhoodAccessorFunctor :=
  (VectorImageNeighborhoodAccessorFunctor.construct img.m_VectorLength).SetBegin
    img.m_Buffer.base

/-- Modelled from the spec: the raw pointer the window holds for the grid
position `ind`, "computed as if pixels had unit stride (`Begin + logicalIndex`)". -/
def pixelPointer (img : Image) (ind : List Int) : Int :=
  img.m_Buffer.base +
    ComputeOffsetAux img.m_BufferedRegion.m_Index img.m_BufferedRegion.m_Size ind

/-- The pixel at the grid position `ind`, read through the accessor. -/
def GetPixel (img : Image) (ind : List Int) : Option (List Int) :=
  img.GetNeighborhoodAccessor.Get img.m_Buffer (img.pixelPointer ind)

end Image

/-- Modelled from the spec: the grid positions covered by the window of radius
`radius` centred at `center`, as a region. -/
def windowRegion (radius : List Nat) (center : List Int) : ImageRegion :=
  { m_Index := List.zipWith (fun (c : Int) (r : Nat) => c - (r : Int)) center radius
    m_Size := radius.map (fun r => 2 * r + 1) }

/-- Modelled from the spec: the window of raw pointers centred at `center`
("a fixed-shape ordered sequence of raw buffer pointers"). -/
def GetNeighborhood (img : Image) (radius : List Nat) (center : List Int) :
    Neighborhood Int :=
  { radius := radius
    buffer := (windowRegion radius center).indices.map img.pixelPointer }

/-- Modelled from the spec: the zero-flux extension, which "clamps the
out-of-range index to the nearest valid boundary pixel and returns that pixel's
value".  `point_index` is the position of the requested entry inside the window
(0-based per axis), `boundary_offset` the signed per-axis displacement from the
requested position to the clamped one; the clamped entry of the window is read
through the accessor. -/
def ZeroFluxNeumannBoundaryCondition {α : Type} : ImageBoundaryCondition α :=
  fun point_index boundary_offset data neighborhoodAccessorFunctor mem =>
    let linear_index :=
      ComputeOffsetAux (data.radius.map (fun _ => 0)) (data.radius.map (fun r => 2 * r + 1))
        (List.zipWith (fun (a b : Int) => a + b) point_index boundary_offset)
    if 0 ≤ linear_index then
      match data.buffer[linear_index.toNat]? with
      | some pixelPointer => neighborhoodAccessorFunctor.Get mem pixelPointer
      | none => none
    else none

/-- Modelled from the spec: resolution of one window entry, the one at grid
position `ind` of the window centred at `center`: "in-range entries via the
accessor directly and out-of-range entries via BoundaryCondition".  The second
component counts the invocations of the boundary condition (0 or 1). -/
def NeighborhoodGetPixel (img : Image) (bc : ImageBoundaryCondition Int) (radius : List Nat)
    (center ind : List Int) : Option (List Int) × Nat :=
  if img.m_BufferedRegion.IsInside ind then
    (img.GetNeighborhoodAccessor.Get img.m_Buffer (img.pixelPointer ind), 0)
  else
    (img.GetNeighborhoodAccessor.BoundaryCondition
      (List.zipWith (fun (a b : Int) => a - b) ind (windowRegion radius center).m_Index)
      (List.zipWith (fun (a b : Int) => a - b)
        (ClampAux img.m_BufferedRegion.m_Index img.m_BufferedRegion.m_Size ind) ind)
      (GetNeighborhood img radius center) bc img.m_Buffer, 1)

/-- Component-wise sum of two pixel values. -/
def PixelAdd (a b : List Int) : List Int :=
  List.zipWith (fun (x y : Int) => x + y) a b

/-- Product of a weight and a pixel value, component-wise. -/
def PixelScale (w : Int) (a : List Int) : List Int :=
  a.map (fun x => w * x)

/-- Modelled from the spec: the inner product of the operator with one window:
the weights and the window entries are walked together in their fixed order,
`sum += weight * sample`.  `calls` counts the boundary-condition invocations. -/
def InnerProductLoop (img : Image) (bc : ImageBoundaryCondition Int) (radius : List Nat)
    (center : List Int) : List Int → List (List Int) → List Int → Nat → Option (List Int × Nat)
  | w :: ws, ind :: inds, sum, calls =>
    match NeighborhoodGetPixel img bc radius center ind with
    | (some sample, n) =>
      InnerProductLoop img bc radius center ws inds (PixelAdd sum (PixelScale w sample))
        (calls + n)
    | (none, _) => none
  | _, _, sum, calls => some (sum, calls)

/-- Modelled from the spec: the inner product at the location `center`,
accumulated from the zero pixel. -/
def NeighborhoodInnerProduct (img : Image) (bc : ImageBoundaryCondition Int)
    (op : Neighborhood Int) (center : List Int) : Option (List Int × Nat) :=
  InnerProductLoop img bc op.radius center op.buffer (windowRegion op.radius center).indices
    (List.replicate img.m_VectorLength 0) 0

/-- The spec's formula `Σ over kernel offsets k of kernel[k] × sample(p + k)` for
component `c`, over the weights and the resolved samples in window order. -/
def weightedSum (weights : List Int) (samples : List (List Int)) (c : Nat) : Int :=
  (List.zipWith (fun w s => w * s.getD c 0) weights samples).sum

/-! ## NeighborhoodOperatorImageFilter -/

/-- What `m_BoundsCondition` points to: the filter's own
`m_DefaultBoundaryCondition`, or an object supplied by the caller. -/
inductive ImageBoundaryConditionPointerType where
  | ownDefault : ImageBoundaryConditionPointerType
  | external (condition : ImageBoundaryCondition Int) : ImageBoundaryConditionPointerType

/-- The private members of `NeighborhoodOperatorImageFilter`.
`m_DefaultBoundaryCondition` is a `ZeroFluxNeumannBoundaryCondition`, which
has no state. -/
structure NeighborhoodOperatorImageFilter where
  m_Operator : Neighborhood Int
  m_BoundsCondition : ImageBoundaryConditionPointerType

namespace NeighborhoodOperatorImageFilter

/-- Constructor: `m_BoundsCondition = &m_DefaultBoundaryCondition`; the operator is
default-constructed (an empty neighborhood). -/
def construct : NeighborhoodOperatorImageFilter :=
  { m_Operator := { radius := [], buffer := [] }
    m_BoundsCondition := ImageBoundaryConditionPointerType.ownDefault }

/-- Member `SetOperator( p )`: `m_Operator = p` (the call `this->Modified()` only
touches the pipeline time stamp, which is not part of this state). -/
def SetOperator (self : NeighborhoodOperatorImageFilter) (p : Neighborhood Int) :
    NeighborhoodOperatorImageFilter :=
  { self with m_Operator := p }

/-- Member `GetOperator()`. -/
def GetOperator (self : NeighborhoodOperatorImageFilter) : Neighborhood Int :=
  self.m_Operator

/-- Member `OverrideBoundaryCondition( i )`: `m_BoundsCondition = i`. -/
def OverrideBoundaryCondition (self : NeighborhoodOperatorImageFilter)
    (i : ImageBoundaryConditionPointerType) : NeighborhoodOperatorImageFilter :=
  { self with m_BoundsCondition := i }

/-- Member `GetBoundaryCondition()`. -/
def GetBoundaryCondition (self : NeighborhoodOperatorImageFilter) :
    ImageBoundaryConditionPointerType :=
  self.m_BoundsCondition

/-- Dereference of `m_BoundsCondition`: the policy object the sweep calls. -/
def boundsCondition (self : NeighborhoodOperatorImageFilter) : ImageBoundaryCondition Int :=
  match self.m_BoundsCondition with
  | ImageBoundaryConditionPointerType.ownDefault => ZeroFluxNeumannBoundaryCondition
  | ImageBoundaryConditionPointerType.external condition => condition

/-- Modelled from the spec: one worker's sweep over the locations `locs` (the body
of `ThreadedGenerateData` is not among the sources): for every location the inner
product of the operator with the window is computed and "written via the
accessor" of the output image.  The state is the output buffer and the count of
boundary-condition invocations. -/
def sweep (self : NeighborhoodOperatorImageFilter) (input output : Image) :
    List (List Int) → Memory Int × Nat → Option (Memory Int × Nat)
  | [], state => some state
  | center :: rest, (mem, calls) =>
    match NeighborhoodInnerProduct input self.boundsCondition self.m_Operator center with
    | none => none
    | some (value, n) =>
      match output.GetNeighborhoodAccessor.Set mem (output.pixelPointer center) value with
      | none => none
      | some mem1 => sweep self input output rest (mem1, calls + n)

/-- Modelled from the spec: `ThreadedGenerateData( outputRegionForThread, threadId )`:
the sweep of one worker over its sub-region.  Returns the output image and the
number of boundary-condition invocations. -/
def ThreadedGenerateData (self : NeighborhoodOperatorImageFilter) (input output : Image)
    (outputRegionForThread : ImageRegion) : Option (Image × Nat) :=
  match sweep self input output outputRegionForThread.indices (output.m_Buffer, 0) with
  | none => none
  | some (mem, calls) => some ({ output with m_Buffer := mem }, calls)

/-- Modelled from the spec: a run of the filter with one worker per sub-region
("workers do not communicate"; their writes are disjoint, so the run is the
composition of the workers' sweeps, here in list order). -/
def GenerateData (self : NeighborhoodOperatorImageFilter) (input : Image) :
    List ImageRegion → Image → Option Image
  | [], output => some output
  | region :: regions, output =>
    match ThreadedGenerateData self input output region with
    | none => none
    | some (output1, _) => GenerateData self input regions output1

end NeighborhoodOperatorImageFilter

/-! ## Region negotiation -/

/-- The scalar that a sweep leaves in slot `k` of the output buffer when the
location owning that slot has been visited: component `k % VectorLength` of the
inner product at the location of logical offset `k / VectorLength`. -/
def sweepCell (self : NeighborhoodOperatorImageFilter) (input output : Image) (k : Nat) :
    Option Int :=
  match NeighborhoodInnerProduct input self.boundsCondition self.m_Operator
      (ComputeIndexAux output.m_BufferedRegion.m_Index output.m_BufferedRegion.m_Size
        (k / output.m_VectorLength)) with
  | some (value, _) => value[k % output.m_VectorLength]?
  | none => none

/-- The identity operator of a given radius: "weight 1 at the zero offset, 0
elsewhere", the offsets being the positions of the window centred at the origin. -/
def identityOperator (radius : List Nat) : Neighborhood Int :=
  { radius := radius
    buffer := (windowRegion radius (radius.map (fun _ => 0))).indices.map
      (fun offset => if offset = radius.map (fun _ => 0) then 1 else 0) }

/-! ## Scenarios of the specification -/

/-- The 1-D image of 5 scalar pixels `[1,2,3,4,5]`. -/
def scenarioImage5 : Image :=
  { m_BufferedRegion := { m_Index := [0], m_Size := [5] }
    m_VectorLength := 1
    m_Buffer := { base := 1000, cells := [1, 2, 3, 4, 5] } }

/-- An allocated output image for `scenarioImage5`. -/
def scenarioOutput5 : Image :=
  { m_BufferedRegion := { m_Index := [0], m_Size := [5] }
    m_VectorLength := 1
    m_Buffer := { base := 2000, cells := [0, 0, 0, 0, 0] } }

/-- A freshly constructed filter (default zero-flux boundary condition) with the
operator `[1,0,-1]` of radius 1. -/
def scenarioDifferenceFilter : NeighborhoodOperatorImageFilter :=
  NeighborhoodOperatorImageFilter.construct.SetOperator { radius := [1], buffer := [1, 0, -1] }

/-- The 2-component vector image of 3 pixels `[(1,10),(2,20),(3,30)]`. -/
def scenarioVectorImage3 : Image :=
  { m_BufferedRegion := { m_Index := [0], m_Size := [3] }
    m_VectorLength := 2
    m_Buffer := { base := 1000, cells := [1, 10, 2, 20, 3, 30] } }

/-- An allocated output image for `scenarioVectorImage3`. -/
def scenarioVectorOutput3 : Image :=
  { m_BufferedRegion := { m_Index := [0], m_Size := [3] }
    m_VectorLength := 2
    m_Buffer := { base := 2000, cells := [0, 0, 0, 0, 0, 0] } }

/-! ## Call sequences on the accessor and the filter -/

/-- One of the two mutating members of the accessor, with its argument. -/
inductive AccessorCall where
  | setBegin (begin : Int) : AccessorCall
  | setVectorLength (length : Nat) : AccessorCall
deriving DecidableEq

/-- The accessor after one call. -/
def AccessorCall.apply (acc : VectorImageNeighborhoodAccessorFunctor) :
    AccessorCall → VectorImageNeighborhoodAccessorFunctor
  | AccessorCall.setBegin begin => acc.SetBegin begin
  | AccessorCall.setVectorLength length => acc.SetVectorLength length

/-- The accessor after a sequence of `SetBegin` and `SetVectorLength` calls. -/
def VectorImageNeighborhoodAccessorFunctor.runCalls
    (acc : VectorImageNeighborhoodAccessorFunctor) (calls : List AccessorCall) :
    VectorImageNeighborhoodAccessorFunctor :=
  calls.foldl AccessorCall.apply acc

/-- The relation stated at the declaration of the member,
`m_OffsetMultiplier = m_VectorLength-1`, in the arithmetic of `unsigned int`. -/
abbrev VectorImageNeighborhoodAccessorFunctor.OffsetMultiplierInvariant
    (acc : VectorImageNeighborhoodAccessorFunctor) : Prop :=
  acc.m_VectorLength < 2 ^ 32 ∧
  acc.m_OffsetMultiplier = (acc.m_VectorLength + (2 ^ 32 - 1)) % 2 ^ 32

/-- The filter after a sequence of `OverrideBoundaryCondition` calls. -/
def NeighborhoodOperatorImageFilter.overrideAll (self : NeighborhoodOperatorImageFilter)
    (policies : List ImageBoundaryConditionPointerType) : NeighborhoodOperatorImageFilter :=
  policies.foldl NeighborhoodOperatorImageFilter.OverrideBoundaryCondition self

/-- A caller of the filter: the caller's own operator object and the filter. -/
structure OperatorClient where
  callerOperator : Neighborhood Int
  filter : NeighborhoodOperatorImageFilter

/-- The caller runs `filter->SetOperator( callerOperator )`. -/
def OperatorClient.callSetOperator (c : OperatorClient) : OperatorClient :=
  { c with filter := c.filter.SetOperator c.callerOperator }

/-- The caller changes its own operator object. -/
def OperatorClient.changeCallerOperator (c : OperatorClient) (p : Neighborhood Int) :
    OperatorClient :=
  { c with callerOperator := p }

/-! ## ChainCodeToFourierSeriesPathFilter -/

/-- The input path type is not among the sources; of a chain code path the
filter uses its start index and its sequence of steps. -/
structure ChainCodePath where
  m_Start : List Int
  m_Chain : List (List Int)
deriving DecidableEq

/-- The call `inputPtr->NumberOfSteps()`, stored in `unsigned int numSteps`. -/
def ChainCodePath.NumberOfSteps (path : ChainCodePath) : Nat :=
  path.m_Chain.length % 2 ^ 32

/-- The output path type is not among the sources; of a Fourier series path the
filter uses `Clear()` and `AddHarmonic()`: the path is the sequence of its
harmonics, each a pair of coefficient vectors of type `H`. -/
structure FourierSeriesPath (H : Type) where
  harmonics : List H
deriving DecidableEq

/-- The call `outputPtr->Clear()`. -/
def FourierSeriesPath.Clear {H : Type} (_path : FourierSeriesPath H) : FourierSeriesPath H :=
  { harmonics := [] }

/-- The call `outputPtr->AddHarmonic( cosCoefficient, sinCoefficient )`. -/
def FourierSeriesPath.AddHarmonic {H : Type} (path : FourierSeriesPath H) (harmonic : H) :
    FourierSeriesPath H :=
  { harmonics := path.harmonics ++ [harmonic] }

/-- The member of `ChainCodeToFourierSeriesPathFilter`. -/
structure ChainCodeToFourierSeriesPathFilter where
  m_NumberOfHarmonics : Nat
deriving DecidableEq

namespace ChainCodeToFourierSeriesPathFilter

/-- Constructor: `m_NumberOfHarmonics = 8`. -/
def construct : ChainCodeToFourierSeriesPathFilter :=
  { m_NumberOfHarmonics := 8 }

/-- The block "Adjust our private copy of numHarmonics if necessary" of
`GenerateData`; `numHarmonics * 2` is computed in `unsigned int`. -/
def adjustNumHarmonics (numHarmonics numSteps : Nat) : Nat :=
  if numHarmonics ≤ 1 then 2
  else if (numHarmonics * 2) % 2 ^ 32 > numSteps then numSteps / 2
  else numHarmonics

/-- The loop `for ( unsigned n = 0; n < numHarmonics; n++ )` of `GenerateData`, run
for `n = 0, …, count - 1`.  The coefficient pair of harmonic `n`, which the inner
loop accumulates in floating point from the steps of the input, is the
parameter `coefficients n`. -/
def harmonicLoop {H : Type} (coefficients : Nat → H) :
    Nat → FourierSeriesPath H → FourierSeriesPath H
  | 0, output => output
  | count + 1, output => (harmonicLoop coefficients count output).AddHarmonic (coefficients count)

/-- Member `GenerateData()`: returns the filter and the output path. -/
def GenerateData {H : Type} (self : ChainCodeToFourierSeriesPathFilter)
    (input : ChainCodePath) (output : FourierSeriesPath H)
    (coefficients : ChainCodePath → Nat → Nat → H) :
    ChainCodeToFourierSeriesPathFilter × FourierSeriesPath H :=
  let numHarmonics := self.m_NumberOfHarmonics
  let numSteps := input.NumberOfSteps
  let output1 := output.Clear
  let numHarmonics1 := adjustNumHarmonics numHarmonics numSteps
  (self, harmonicLoop (coefficients input numSteps) numHarmonics1 output1)

end ChainCodeToFourierSeriesPathFilter

/-! ## LevelSetVelocityNeighborhoodExtractor -/

/-- The member `AuxImageConstPointer m_AuxImage[VAuxDimension]` of
`LevelSetVelocityNeighborhoodExtractor`: an array of exactly `VAuxDimension`
pointers; `none` is the null pointer, `P` the type of non-null pointers. -/
structure LevelSetVelocityNeighborhoodExtractor (P : Type) (VAuxDimension : Nat) where
  m_AuxImage : Fin VAuxDimension → Option P

namespace LevelSetVelocityNeighborhoodExtractor

/-- Member `SetAuxImage( ptr, idx )`: `if ( idx < VAuxDimension && m_AuxImage[idx] != ptr )
m_AuxImage[idx] = ptr;` (`this->Modified()` only touches the time stamp). -/
def SetAuxImage {P : Type} [DecidableEq P] {VAuxDimension : Nat}
    (self : LevelSetVelocityNeighborhoodExtractor P VAuxDimension) (ptr : Option P)
    (idx : Nat) : LevelSetVelocityNeighborhoodExtractor P VAuxDimension :=
  if h : idx < VAuxDimension then
    if self.m_AuxImage ⟨idx, h⟩ ≠ ptr then
      { m_AuxImage := Function.update self.m_AuxImage ⟨idx, h⟩ ptr }
    else self
  else self

/-- Member `GetAuxImage( idx )`. -/
def GetAuxImage {P : Type} {VAuxDimension : Nat}
    (self : LevelSetVelocityNeighborhoodExtractor P VAuxDimension) (idx : Nat) : Option P :=
  if h : idx ≥ VAuxDimension then none
  else self.m_AuxImage ⟨idx, Nat.lt_of_not_ge h⟩

end LevelSetVelocityNeighborhoodExtractor

/-! ## Memory lemmas -/

theorem Memory.read_base_add {α : Type} (m : Memory α) (k : Nat) :
    m.read (m.base + k) = m.cells[k]? := by
  unfold Memory.read
  have h1 : m.base ≤ m.base + (k : Int) := by omega
  have h2 : (m.base + (k : Int) - m.base).toNat = k := by omega
  rw [if_pos h1, h2]

theorem Memory.write_base_add {α : Type} (m : Memory α) (k : Nat) (x : α)
    (hk : k < m.cells.length) :
    m.write (m.base + k) x = some { base := m.base, cells := m.cells.set k x } := by
  unfold Memory.write
  have h1 : m.base ≤ m.base + (k : Int) ∧ m.base + (k : Int) < m.base + m.cells.length := by
    omega
  have h2 : (m.base + (k : Int) - m.base).toNat = k := by omega
  rw [if_pos h1, h2]

theorem Memory.readN_base_add {α : Type} (m : Memory α) (n : Nat) :
    ∀ k : Nat, k + n ≤ m.cells.length →
      m.readN (m.base + k) n = some ((m.cells.drop k).take n) := by
  induction n with
  | zero => intro k _; simp [Memory.readN]
  | succ n ih =>
    intro k hk
    have hlt : k < m.cells.length := by omega
    have hstep : m.base + (k : Int) + 1 = m.base + ((k + 1 : Nat) : Int) := by
      push_cast; ring
    have hrec := ih (k + 1) (by omega)
    rw [Memory.readN, Memory.read_base_add, hstep, hrec, List.getElem?_eq_getElem hlt]
    simp only [Option.some.injEq]
    rw [List.drop_eq_getElem_cons hlt, List.take_succ_cons]

theorem Memory.readN_length {α : Type} (m : Memory α) (n : Nat) :
    ∀ (a : Int) (px : List α), m.readN a n = some px → px.length = n := by
  induction n with
  | zero => intro a px h; simp [Memory.readN] at h; simp [← h]
  | succ n ih =>
    intro a px h
    rw [Memory.readN] at h
    cases hx : m.read a with
    | none => simp [hx] at h
    | some x =>
      cases hxs : m.readN (a + 1) n with
      | none => simp [hx, hxs] at h
      | some xs =>
        simp [hx, hxs] at h
        rw [← h, List.length_cons, ih (a + 1) xs hxs]

/-! ## Accessor lemmas -/

theorem offsetMultiplier_eq (L : Nat) (hL : 1 ≤ L) (hL32 : L < 2 ^ 32) :
    (L % 2 ^ 32 + (2 ^ 32 - 1)) % 2 ^ 32 = L - 1 := by
  norm_num at hL32 ⊢
  omega

theorem vectorLength_eq (L : Nat) (hL32 : L < 2 ^ 32) : L % 2 ^ 32 = L :=
  Nat.mod_eq_of_lt hL32

theorem truePixelPointer_eq (b : Int) (i L : Nat) (hL : 1 ≤ L) :
    (b + i : Int) + ((b + i) - b) * ((L - 1 : Nat) : Int) = b + ((i * L : Nat) : Int) := by
  obtain ⟨n, rfl⟩ : ∃ n, L = n + 1 := ⟨L - 1, by omega⟩
  simp only [Nat.add_sub_cancel]
  push_cast
  ring

/-- The cells after the copy loop of `Set` has written `n` components of `p`
from cell `k` on. -/
theorem SetLoop_spec {α : Type} (p : List α) (m : Memory α) (k : Nat) (n : Nat) :
    k + n ≤ m.cells.length → n ≤ p.length →
      ∃ m1, VectorImageNeighborhoodAccessorFunctor.SetLoop (m.base + k) p n m = some m1 ∧ m1.base = m.base ∧
        m1.cells.length = m.cells.length ∧
        ∀ j : Nat, m1.cells[j]? = if k ≤ j ∧ j < k + n then p[j - k]? else m.cells[j]? := by
  induction n with
  | zero =>
    intro _ _
    refine ⟨m, rfl, rfl, rfl, ?_⟩
    intro j
    have : ¬ (k ≤ j ∧ j < k + 0) := by omega
    rw [if_neg this]
  | succ n ih =>
    intro hk hp
    obtain ⟨m1, h1, hb, hlen, hcells⟩ := ih (by omega) (by omega)
    have hpn : n < p.length := by omega
    have haddr : m.base + (k : Int) + (n : Int) = m1.base + ((k + n : Nat) : Int) := by
      rw [hb]; push_cast; ring
    have hkn : k + n < m1.cells.length := by omega
    refine ⟨{ base := m1.base, cells := m1.cells.set (k + n) p[n] }, ?_, hb, ?_, ?_⟩
    · rw [VectorImageNeighborhoodAccessorFunctor.SetLoop, h1]
      simp only [List.getElem?_eq_getElem hpn]
      rw [haddr, Memory.write_base_add m1 (k + n) p[n] hkn]
    · simp [hlen]
    · intro j
      simp only []
      by_cases hj : k + n = j
      · subst hj
        have hin : k ≤ k + n ∧ k + n < k + (n + 1) := by omega
        rw [List.getElem?_set, if_pos rfl, if_pos hkn, if_pos hin]
        have : k + n - k = n := by omega
        rw [this, List.getElem?_eq_getElem hpn]
      · rw [List.getElem?_set_ne hj, hcells j]
        by_cases hin : k ≤ j ∧ j < k + n
        · have hin2 : k ≤ j ∧ j < k + (n + 1) := by omega
          rw [if_pos hin, if_pos hin2]
        · have hin2 : ¬ (k ≤ j ∧ j < k + (n + 1)) := by omega
          rw [if_neg hin, if_neg hin2]

theorem Get_construct {α : Type} (L i : Nat) (mem : Memory α)
    (hL : 1 ≤ L) (hL32 : L < 2 ^ 32) :
    ((VectorImageNeighborhoodAccessorFunctor.construct L).SetBegin mem.base).Get mem
        (mem.base + i) = mem.readN (mem.base + ((i * L : Nat) : Int)) L := by
  simp only [VectorImageNeighborhoodAccessorFunctor.Get,
    VectorImageNeighborhoodAccessorFunctor.SetBegin,
    VectorImageNeighborhoodAccessorFunctor.construct]
  rw [offsetMultiplier_eq L hL hL32, vectorLength_eq L hL32, truePixelPointer_eq _ _ _ hL]

theorem Set_construct {α : Type} (L i : Nat) (mem : Memory α) (v : List α)
    (hL : 1 ≤ L) (hL32 : L < 2 ^ 32) :
    ((VectorImageNeighborhoodAccessorFunctor.construct L).SetBegin mem.base).Set mem
        (mem.base + i) v =
      VectorImageNeighborhoodAccessorFunctor.SetLoop (mem.base + ((i * L : Nat) : Int)) v L
        mem := by
  simp only [VectorImageNeighborhoodAccessorFunctor.Set,
    VectorImageNeighborhoodAccessorFunctor.SetBegin,
    VectorImageNeighborhoodAccessorFunctor.construct]
  rw [offsetMultiplier_eq L hL hL32, vectorLength_eq L hL32, truePixelPointer_eq _ _ _ hL]

theorem getElem?_take_drop {α : Type} (l : List α) (k n c : Nat) (hc : c < n) :
    ((l.drop k).take n)[c]? = l[k + c]? := by
  rw [List.getElem?_take_of_lt hc, List.getElem?_drop]

/-! ## Region arithmetic -/

theorem IsInsideAux_cons (o : Int) (os : List Int) (s : Nat) (ss : List Nat) (i : Int)
    (is : List Int) :
    IsInsideAux (o :: os) (s :: ss) (i :: is) = true ↔
      (o ≤ i ∧ i < o + (s : Int)) ∧ IsInsideAux os ss is = true := by
  simp [IsInsideAux]

theorem IsInsideAux_length : ∀ (o : List Int) (s : List Nat) (i : List Int),
    IsInsideAux o s i = true → o.length = s.length ∧ i.length = s.length := by
  intro o
  induction o with
  | nil =>
    intro s i h
    cases s <;> cases i <;> simp [IsInsideAux] at h ⊢
  | cons o os ih =>
    intro s i h
    cases s with
    | nil => simp [IsInsideAux] at h
    | cons s ss =>
      cases i with
      | nil => simp [IsInsideAux] at h
      | cons i is =>
        rw [IsInsideAux_cons] at h
        have := ih ss is h.2
        simp [this.1, this.2]

/-- A grid position inside the region has a logical offset below the number of
pixels, and `ComputeIndexAux` recovers the position from it. -/
theorem ComputeOffsetAux_inside : ∀ (o : List Int) (s : List Nat) (i : List Int),
    IsInsideAux o s i = true →
      ∃ n : Nat, ComputeOffsetAux o s i = (n : Int) ∧ n < s.prod ∧
        ComputeIndexAux o s n = i := by
  intro o
  induction o with
  | nil =>
    intro s i h
    cases s <;> cases i <;> simp [IsInsideAux] at h
    exact ⟨0, by simp [ComputeOffsetAux], by simp, by simp [ComputeIndexAux]⟩
  | cons o os ih =>
    intro s i h
    cases s with
    | nil => simp [IsInsideAux] at h
    | cons s ss =>
      cases i with
      | nil => simp [IsInsideAux] at h
      | cons i is =>
        rw [IsInsideAux_cons] at h
        obtain ⟨⟨h1, h2⟩, h3⟩ := h
        obtain ⟨m, hm, hlt, hidx⟩ := ih ss is h3
        have ha : ((i - o).toNat : Int) = i - o := Int.toNat_of_nonneg (by omega)
        have has : (i - o).toNat < s := by omega
        refine ⟨(i - o).toNat + s * m, ?_, ?_, ?_⟩
        · rw [ComputeOffsetAux, hm]
          push_cast
          rw [ha]
        · rw [List.prod_cons]
          have : s * (m + 1) ≤ s * ss.prod := Nat.mul_le_mul_left s hlt
          rw [Nat.mul_succ] at this
          omega
        · have hs : 0 < s := by omega
          rw [ComputeIndexAux, Nat.add_mul_mod_self_left, Nat.mod_eq_of_lt has,
            Nat.add_mul_div_left _ _ hs, Nat.div_eq_of_lt has, Nat.zero_add, hidx, ha]
          congr 1
          omega

/-- The grid position at a logical offset below the number of pixels lies inside
the region and has that offset. -/
theorem ComputeIndexAux_inside : ∀ (o : List Int) (s : List Nat) (k : Nat),
    o.length = s.length → k < s.prod →
      IsInsideAux o s (ComputeIndexAux o s k) = true ∧
        ComputeOffsetAux o s (ComputeIndexAux o s k) = (k : Int) := by
  intro o
  induction o with
  | nil =>
    intro s k hlen hk
    cases s with
    | nil =>
      simp at hk
      subst hk
      simp [ComputeIndexAux, IsInsideAux, ComputeOffsetAux]
    | cons s ss => simp at hlen
  | cons o os ih =>
    intro s k hlen hk
    cases s with
    | nil => simp at hlen
    | cons s ss =>
      rw [List.prod_cons] at hk
      have hs : 0 < s := by
        rcases Nat.eq_zero_or_pos s with h0 | h0
        · subst h0; simp at hk
        · exact h0
      have hdiv : k / s < ss.prod := Nat.div_lt_of_lt_mul hk
      have hmod : k % s < s := Nat.mod_lt k hs
      obtain ⟨h1, h2⟩ := ih ss (k / s) (by simpa using hlen) hdiv
      rw [ComputeIndexAux]
      refine ⟨?_, ?_⟩
      · rw [IsInsideAux_cons]
        exact ⟨⟨by omega, by omega⟩, h1⟩
      · rw [ComputeOffsetAux, h2]
        have := Nat.mod_add_div k s
        have hc : ((k % s : Nat) : Int) + (s : Int) * ((k / s : Nat) : Int) = (k : Int) := by
          exact_mod_cast this
        omega

theorem ImageRegion.mem_indices (r : ImageRegion) (hlen : r.m_Index.length = r.m_Size.length)
    (ind : List Int) : ind ∈ r.indices ↔ r.IsInside ind = true := by
  unfold ImageRegion.indices ImageRegion.IsInside ImageRegion.GetNumberOfPixels
  constructor
  · intro h
    rw [List.mem_map] at h
    obtain ⟨k, hk, rfl⟩ := h
    rw [List.mem_range] at hk
    exact (ComputeIndexAux_inside _ _ k hlen hk).1
  · intro h
    obtain ⟨n, _, hlt, hidx⟩ := ComputeOffsetAux_inside _ _ _ h
    rw [List.mem_map]
    exact ⟨n, List.mem_range.mpr hlt, hidx⟩

theorem ImageRegion.length_indices (r : ImageRegion) :
    r.indices.length = r.GetNumberOfPixels := by
  simp [ImageRegion.indices]

/-! ## Pixels of a well-formed image -/

theorem Image.pixel_in_buffer (img : Image) (hwf : img.WellFormed) (n : Nat)
    (hn : n < img.m_BufferedRegion.GetNumberOfPixels) :
    n * img.m_VectorLength + img.m_VectorLength ≤ img.m_Buffer.cells.length := by
  obtain ⟨_, _, _, hlen⟩ := hwf
  rw [hlen]
  have : (n + 1) * img.m_VectorLength ≤
      img.m_BufferedRegion.GetNumberOfPixels * img.m_VectorLength :=
    Nat.mul_le_mul_right _ hn
  rw [Nat.succ_mul] at this
  exact this

/-- Reading a grid position inside the buffered region through the accessor
yields the `VectorLength` scalars stored for it. -/
theorem Image.GetPixel_inside (img : Image) (hwf : img.WellFormed) (ind : List Int)
    (h : img.m_BufferedRegion.IsInside ind = true) :
    ∃ n : Nat,
      ComputeOffsetAux img.m_BufferedRegion.m_Index img.m_BufferedRegion.m_Size ind = (n : Int) ∧
      n < img.m_BufferedRegion.GetNumberOfPixels ∧
      ComputeIndexAux img.m_BufferedRegion.m_Index img.m_BufferedRegion.m_Size n = ind ∧
      img.GetPixel ind =
        some ((img.m_Buffer.cells.drop (n * img.m_VectorLength)).take img.m_VectorLength) := by
  obtain ⟨n, hoff, hlt, hidx⟩ := ComputeOffsetAux_inside _ _ _ h
  refine ⟨n, hoff, hlt, hidx, ?_⟩
  unfold Image.GetPixel Image.GetNeighborhoodAccessor Image.pixelPointer
  rw [hoff, Get_construct _ n img.m_Buffer hwf.1 hwf.2.1,
    Memory.readN_base_add _ _ _ (Image.pixel_in_buffer img hwf n hlt)]

theorem Image.GetPixel_inside_length (img : Image) (hwf : img.WellFormed) (ind : List Int)
    (h : img.m_BufferedRegion.IsInside ind = true) :
    ∃ px, img.GetPixel ind = some px ∧ px.length = img.m_VectorLength := by
  obtain ⟨n, _, hlt, _, hget⟩ := Image.GetPixel_inside img hwf ind h
  refine ⟨_, hget, ?_⟩
  have := Image.pixel_in_buffer img hwf n hlt
  rw [List.length_take, List.length_drop]
  omega

/-! ## The inner product -/

theorem PixelAdd_getD : ∀ (a b : List Int) (c : Nat), c < a.length → c < b.length →
    (PixelAdd a b).getD c 0 = a.getD c 0 + b.getD c 0 := by
  intro a
  induction a with
  | nil => intro b c h; simp at h
  | cons x xs ih =>
    intro b c h1 h2
    cases b with
    | nil => simp at h2
    | cons y ys =>
      cases c with
      | zero => simp [PixelAdd]
      | succ c =>
        have := ih ys c (by simpa using h1) (by simpa using h2)
        simpa [PixelAdd] using this

theorem PixelScale_getD (w : Int) : ∀ (a : List Int) (c : Nat),
    (PixelScale w a).getD c 0 = w * a.getD c 0 := by
  intro a
  induction a with
  | nil => intro c; simp [PixelScale]
  | cons x xs ih =>
    intro c
    cases c with
    | zero => simp [PixelScale]
    | succ c =>
      have := ih c
      simpa [PixelScale] using this

theorem PixelAdd_length (a b : List Int) (L : Nat) (ha : a.length = L) (hb : b.length = L) :
    (PixelAdd a b).length = L := by
  simp [PixelAdd, ha, hb]

theorem PixelScale_length (w : Int) (a : List Int) : (PixelScale w a).length = a.length := by
  simp [PixelScale]

theorem weightedSum_cons (w : Int) (ws : List Int) (s : List Int) (samples : List (List Int))
    (c : Nat) :
    weightedSum (w :: ws) (s :: samples) c = w * s.getD c 0 + weightedSum ws samples c := by
  simp [weightedSum]

/-- The loop of the inner product returns, when every window entry resolves to a
pixel of `L` components, the running sum plus the weighted sum of the samples. -/
theorem InnerProductLoop_spec (img : Image) (bc : ImageBoundaryCondition Int)
    (radius : List Nat) (center : List Int) (L : Nat) :
    ∀ (ws : List Int) (inds : List (List Int)) (sum : List Int) (calls : Nat),
      ws.length = inds.length → sum.length = L →
      (∀ q ∈ inds, ∃ s, (NeighborhoodGetPixel img bc radius center q).1 = some s ∧
        s.length = L) →
      ∃ v n samples, InnerProductLoop img bc radius center ws inds sum calls = some (v, n) ∧
        v.length = L ∧
        inds.map (fun q => (NeighborhoodGetPixel img bc radius center q).1) =
          samples.map some ∧
        ∀ c, c < L → v.getD c 0 = sum.getD c 0 + weightedSum ws samples c := by
  intro ws
  induction ws with
  | nil =>
    intro inds sum calls hlen hsum _
    cases inds with
    | cons q qs => simp at hlen
    | nil =>
      refine ⟨sum, calls, [], ?_, hsum, rfl, ?_⟩
      · simp [InnerProductLoop]
      · intro c _; simp [weightedSum]
  | cons w ws ih =>
    intro inds sum calls hlen hsum hres
    cases inds with
    | nil => simp at hlen
    | cons q qs =>
      obtain ⟨s, hs, hsl⟩ := hres q (List.mem_cons_self q qs)
      have hpair : NeighborhoodGetPixel img bc radius center q =
          (some s, (NeighborhoodGetPixel img bc radius center q).2) := Prod.ext hs rfl
      have hsum1 : (PixelAdd sum (PixelScale w s)).length = L :=
        PixelAdd_length _ _ L hsum (by rw [PixelScale_length, hsl])
      obtain ⟨v, n, samples, hloop, hvl, hmap, hv⟩ :=
        ih qs (PixelAdd sum (PixelScale w s))
          (calls + (NeighborhoodGetPixel img bc radius center q).2)
          (by simpa using hlen) hsum1
          (fun q1 hq1 => hres q1 (List.mem_cons_of_mem q hq1))
      refine ⟨v, n, s :: samples, ?_, hvl, ?_, ?_⟩
      · rw [InnerProductLoop, hpair]
        exact hloop
      · rw [List.map_cons, List.map_cons, hmap, hs]
      · intro c hc
        rw [hv c hc, PixelAdd_getD _ _ c (by omega) (by rw [PixelScale_length]; omega),
          PixelScale_getD, weightedSum_cons]
        ring

/-- When every window entry lies inside the image, the loop of the inner product
invokes no boundary condition. -/
theorem InnerProductLoop_calls (img : Image) (bc : ImageBoundaryCondition Int)
    (radius : List Nat) (center : List Int) :
    ∀ (ws : List Int) (inds : List (List Int)) (sum : List Int) (calls : Nat)
      (v : List Int) (n : Nat),
      (∀ q ∈ inds, img.m_BufferedRegion.IsInside q = true) →
      InnerProductLoop img bc radius center ws inds sum calls = some (v, n) → n = calls := by
  intro ws
  induction ws with
  | nil =>
    intro inds sum calls v n _ h
    simp [InnerProductLoop] at h
    exact h.2.symm
  | cons w ws ih =>
    intro inds sum calls v n hin h
    cases inds with
    | nil =>
      simp [InnerProductLoop] at h
      exact h.2.symm
    | cons q qs =>
      have hq := hin q (List.mem_cons_self q qs)
      rw [InnerProductLoop] at h
      have hngp : NeighborhoodGetPixel img bc radius center q =
          (img.GetNeighborhoodAccessor.Get img.m_Buffer (img.pixelPointer q), 0) := by
        unfold NeighborhoodGetPixel
        rw [if_pos hq]
      rw [hngp] at h
      cases hget : img.GetNeighborhoodAccessor.Get img.m_Buffer (img.pixelPointer q) with
      | none => simp [hget] at h
      | some s =>
        simp only [hget] at h
        have := ih qs _ _ v n (fun q1 hq1 => hin q1 (List.mem_cons_of_mem q hq1)) h
        omega

/-! ## The sweep -/

/-- Slot `k` of the buffer belongs to the pixel of logical offset `n` exactly when
the grid position decoded from `k / L` is the position of offset `n`. -/
theorem slot_owner (o : List Int) (s : List Nat) (L n k : Nat) (ind : List Int)
    (hlen : o.length = s.length) (hL : 1 ≤ L) (hn : n < s.prod)
    (hidx : ComputeIndexAux o s n = ind) (hk : k < s.prod * L) :
    (n * L ≤ k ∧ k < n * L + L) ↔ ComputeIndexAux o s (k / L) = ind := by
  have hL0 : 0 < L := hL
  have hdm := Nat.div_add_mod k L
  have hmod := Nat.mod_lt k hL0
  have hcomm : L * (k / L) = k / L * L := Nat.mul_comm _ _
  constructor
  · rintro ⟨h1, h2⟩
    have : k / L = n := Nat.div_eq_of_lt_le h1 (by rw [Nat.succ_mul]; exact h2)
    rw [this, hidx]
  · intro h
    have hdiv : k / L < s.prod := Nat.div_lt_of_lt_mul (by rw [Nat.mul_comm]; exact hk)
    have e1 := (ComputeIndexAux_inside o s (k / L) hlen hdiv).2
    have e2 := (ComputeIndexAux_inside o s n hlen hn).2
    rw [h] at e1
    rw [hidx] at e2
    have : k / L = n := by
      have : ((k / L : Nat) : Int) = (n : Int) := by rw [← e1, ← e2]
      exact_mod_cast this
    subst this
    omega

theorem slot_owner_mod (L n k : Nat) (h : n * L ≤ k ∧ k < n * L + L) :
    k - n * L = k % L := by
  have hL0 : 0 < L := by omega
  have hdiv : k / L = n := Nat.div_eq_of_lt_le h.1 (by rw [Nat.succ_mul]; exact h.2)
  have hdm := Nat.div_add_mod k L
  rw [hdiv, Nat.mul_comm] at hdm
  omega

/-- The effect of a sweep on the output buffer: every slot owned by a visited
location holds the corresponding component of the inner product at that
location, every other slot is untouched. -/
theorem NeighborhoodOperatorImageFilter.sweep_spec (self : NeighborhoodOperatorImageFilter)
    (input output : Image) (hwf : output.WellFormed) :
    ∀ (locs : List (List Int)) (mem : Memory Int) (calls : Nat),
      mem.base = output.m_Buffer.base →
      mem.cells.length = output.m_Buffer.cells.length →
      (∀ p ∈ locs, output.m_BufferedRegion.IsInside p = true ∧
        ∃ v n, NeighborhoodInnerProduct input self.boundsCondition self.m_Operator p =
          some (v, n) ∧ v.length = output.m_VectorLength) →
      ∃ mem1 calls1, sweep self input output locs (mem, calls) = some (mem1, calls1) ∧
        mem1.base = mem.base ∧ mem1.cells.length = mem.cells.length ∧
        ∀ k, k < mem.cells.length →
          mem1.cells[k]? =
            if ComputeIndexAux output.m_BufferedRegion.m_Index output.m_BufferedRegion.m_Size
                (k / output.m_VectorLength) ∈ locs
            then sweepCell self input output k else mem.cells[k]? := by
  intro locs
  induction locs with
  | nil =>
    intro mem calls _ _ _
    refine ⟨mem, calls, rfl, rfl, rfl, ?_⟩
    intro k _
    simp
  | cons p rest ih =>
    intro mem calls hbase hlen hlocs
    obtain ⟨hin, v, n, hip, hvl⟩ := hlocs p (List.mem_cons_self p rest)
    obtain ⟨m, hoff, hlt, hidx⟩ := ComputeOffsetAux_inside _ _ _ hin
    have hfit : m * output.m_VectorLength + output.m_VectorLength ≤ mem.cells.length := by
      rw [hlen]; exact Image.pixel_in_buffer output hwf m hlt
    obtain ⟨mem1, hset, hb1, hl1, hc1⟩ :=
      SetLoop_spec v mem (m * output.m_VectorLength) output.m_VectorLength hfit (by omega)
    have hSet : output.GetNeighborhoodAccessor.Set mem (output.pixelPointer p) v =
        some mem1 := by
      unfold Image.GetNeighborhoodAccessor Image.pixelPointer
      rw [hoff, ← hbase, Set_construct _ m mem v hwf.1 hwf.2.1, hset]
    obtain ⟨mem2, calls2, hsw, hb2, hl2, hc2⟩ :=
      ih mem1 (calls + n) (by rw [hb1, hbase]) (by rw [hl1, hlen])
        (fun q hq => hlocs q (List.mem_cons_of_mem p hq))
    refine ⟨mem2, calls2, ?_, by rw [hb2, hb1], by rw [hl2, hl1], ?_⟩
    · rw [sweep, hip]
      simp only [hSet]
      exact hsw
    · intro k hk
      have hk1 : k < mem1.cells.length := by omega
      have hkN : k < output.m_BufferedRegion.m_Size.prod * output.m_VectorLength := by
        have := hwf.2.2.2
        unfold ImageRegion.GetNumberOfPixels at this
        omega
      have hown := slot_owner output.m_BufferedRegion.m_Index output.m_BufferedRegion.m_Size
        output.m_VectorLength m k p hwf.2.2.1 hwf.1 hlt hidx hkN
      rw [hc2 k hk1, hc1 k]
      by_cases hrest :
          ComputeIndexAux output.m_BufferedRegion.m_Index output.m_BufferedRegion.m_Size
            (k / output.m_VectorLength) ∈ rest
      · rw [if_pos hrest, if_pos (List.mem_cons_of_mem p hrest)]
      · rw [if_neg hrest]
        by_cases hp :
            ComputeIndexAux output.m_BufferedRegion.m_Index output.m_BufferedRegion.m_Size
              (k / output.m_VectorLength) = p
        · have hrange := hown.mpr hp
          rw [if_pos hrange, if_pos (by rw [hp]; exact List.mem_cons_self p rest),
            slot_owner_mod _ _ _ hrange]
          unfold sweepCell
          rw [hp, hip]
        · have hrange : ¬ (m * output.m_VectorLength ≤ k ∧
              k < m * output.m_VectorLength + output.m_VectorLength) :=
            fun h => hp (hown.mp h)
          have hmem :
              ¬ ComputeIndexAux output.m_BufferedRegion.m_Index
                output.m_BufferedRegion.m_Size (k / output.m_VectorLength) ∈ p :: rest := by
            intro h
            rcases List.mem_cons.mp h with h | h
            · exact hp h
            · exact hrest h
          rw [if_neg hrange, if_neg hmem]

/-- Sweeps over two lists of locations with the same members leave the same
output buffer. -/
theorem NeighborhoodOperatorImageFilter.sweep_congr (self : NeighborhoodOperatorImageFilter)
    (input output : Image) (hwf : output.WellFormed) (locs1 locs2 : List (List Int))
    (mem : Memory Int) (calls1 calls2 : Nat)
    (hbase : mem.base = output.m_Buffer.base)
    (hlen : mem.cells.length = output.m_Buffer.cells.length)
    (hlocs : ∀ p ∈ locs1, output.m_BufferedRegion.IsInside p = true ∧
        ∃ v n, NeighborhoodInnerProduct input self.boundsCondition self.m_Operator p =
          some (v, n) ∧ v.length = output.m_VectorLength)
    (hsame : ∀ p, p ∈ locs1 ↔ p ∈ locs2) :
    ∃ mem1 n1 n2, sweep self input output locs1 (mem, calls1) = some (mem1, n1) ∧
      sweep self input output locs2 (mem, calls2) = some (mem1, n2) := by
  obtain ⟨m1, n1, h1, hb1, hl1, hc1⟩ :=
    NeighborhoodOperatorImageFilter.sweep_spec self input output hwf locs1 mem calls1 hbase hlen
      hlocs
  obtain ⟨m2, n2, h2, hb2, hl2, hc2⟩ :=
    NeighborhoodOperatorImageFilter.sweep_spec self input output hwf locs2 mem calls2 hbase hlen
      (fun p hp => hlocs p ((hsame p).mpr hp))
  have hcells : m1.cells = m2.cells := by
    apply List.ext_getElem?
    intro k
    by_cases hk : k < mem.cells.length
    · rw [hc1 k hk, hc2 k hk]
      by_cases hmem :
          ComputeIndexAux output.m_BufferedRegion.m_Index output.m_BufferedRegion.m_Size
            (k / output.m_VectorLength) ∈ locs1
      · rw [if_pos hmem, if_pos ((hsame _).mp hmem)]
      · rw [if_neg hmem, if_neg (fun h => hmem ((hsame _).mpr h))]
    · rw [List.getElem?_eq_none (by omega), List.getElem?_eq_none (by omega)]
  have hm : m1 = m2 := by
    cases m1; cases m2
    simp only [Memory.mk.injEq]
    exact ⟨by simpa using hb1.trans hb2.symm, hcells⟩
  refine ⟨m1, n1, n2, h1, ?_⟩
  rw [hm]
  exact h2

/-! ## Composition of sweeps -/

theorem SetLoop_base {α : Type} (tp : Int) (p : List α) (n : Nat) :
    ∀ (m m1 : Memory α), VectorImageNeighborhoodAccessorFunctor.SetLoop tp p n m = some m1 →
      m1.base = m.base := by
  induction n with
  | zero =>
    intro m m1 h
    simp [VectorImageNeighborhoodAccessorFunctor.SetLoop] at h
    rw [h]
  | succ n ih =>
    intro m m1 h
    rw [VectorImageNeighborhoodAccessorFunctor.SetLoop] at h
    cases hrec : VectorImageNeighborhoodAccessorFunctor.SetLoop tp p n m with
    | none => simp [hrec] at h
    | some m2 =>
      simp only [hrec] at h
      cases hx : p[n]? with
      | none => simp [hx] at h
      | some x =>
        simp only [hx] at h
        unfold Memory.write at h
        split at h
        · simp only [Option.some.injEq] at h
          rw [← h]
          exact ih m m2 hrec
        · simp at h

theorem Set_base {α : Type} (acc : VectorImageNeighborhoodAccessorFunctor) (m m1 : Memory α)
    (ptr : Int) (p : List α) (h : acc.Set m ptr p = some m1) : m1.base = m.base := by
  unfold VectorImageNeighborhoodAccessorFunctor.Set at h
  cases hb : acc.m_Begin with
  | none => simp [hb] at h
  | some b =>
    simp only [hb] at h
    exact SetLoop_base _ _ _ m m1 h

theorem NeighborhoodOperatorImageFilter.sweep_base (self : NeighborhoodOperatorImageFilter)
    (input output : Image) :
    ∀ (locs : List (List Int)) (mem : Memory Int) (calls : Nat) (mem1 : Memory Int)
      (calls1 : Nat),
      sweep self input output locs (mem, calls) = some (mem1, calls1) →
        mem1.base = mem.base := by
  intro locs
  induction locs with
  | nil =>
    intro mem calls mem1 calls1 h
    simp [sweep] at h
    rw [h.1]
  | cons p rest ih =>
    intro mem calls mem1 calls1 h
    rw [sweep] at h
    cases hip : NeighborhoodInnerProduct input self.boundsCondition self.m_Operator p with
    | none => simp [hip] at h
    | some vn =>
      obtain ⟨v, n⟩ := vn
      simp only [hip] at h
      cases hset : output.GetNeighborhoodAccessor.Set mem (output.pixelPointer p) v with
      | none => simp [hset] at h
      | some mem2 =>
        simp only [hset] at h
        rw [ih mem2 (calls + n) mem1 calls1 h, Set_base _ _ _ _ _ hset]

theorem NeighborhoodOperatorImageFilter.sweep_append (self : NeighborhoodOperatorImageFilter)
    (input output : Image) (l2 : List (List Int)) :
    ∀ (l1 : List (List Int)) (state : Memory Int × Nat),
      sweep self input output (l1 ++ l2) state =
        match sweep self input output l1 state with
        | none => none
        | some state1 => sweep self input output l2 state1 := by
  intro l1
  induction l1 with
  | nil => intro state; simp [sweep]
  | cons p rest ih =>
    intro state
    obtain ⟨mem, calls⟩ := state
    rw [List.cons_append, sweep, sweep]
    cases hip : NeighborhoodInnerProduct input self.boundsCondition self.m_Operator p with
    | none => rfl
    | some vn =>
      obtain ⟨v, n⟩ := vn
      simp only []
      cases hset : output.GetNeighborhoodAccessor.Set mem (output.pixelPointer p) v with
      | none => rfl
      | some mem2 => exact ih (mem2, calls + n)

/-- The buffer a sweep leaves does not depend on the initial value of the counter
of boundary-condition invocations. -/
theorem NeighborhoodOperatorImageFilter.sweep_counter (self : NeighborhoodOperatorImageFilter)
    (input output : Image) :
    ∀ (locs : List (List Int)) (mem : Memory Int) (c1 c2 : Nat),
      (sweep self input output locs (mem, c1)).map Prod.fst =
        (sweep self input output locs (mem, c2)).map Prod.fst := by
  intro locs
  induction locs with
  | nil => intro mem c1 c2; simp [sweep]
  | cons p rest ih =>
    intro mem c1 c2
    rw [sweep, sweep]
    cases hip : NeighborhoodInnerProduct input self.boundsCondition self.m_Operator p with
    | none => rfl
    | some vn =>
      obtain ⟨v, n⟩ := vn
      simp only []
      cases hset : output.GetNeighborhoodAccessor.Set mem (output.pixelPointer p) v with
      | none => rfl
      | some mem2 => exact ih mem2 (c1 + n) (c2 + n)

/-- A sweep depends on the output image only through its region, its component
count and the address of its buffer. -/
theorem NeighborhoodOperatorImageFilter.sweep_output (self : NeighborhoodOperatorImageFilter)
    (input output : Image) (mem0 : Memory Int) (hb : mem0.base = output.m_Buffer.base)
    (locs : List (List Int)) (state : Memory Int × Nat) :
    sweep self input { output with m_Buffer := mem0 } locs state =
      sweep self input output locs state := by
  have hacc : ({ output with m_Buffer := mem0 } : Image).GetNeighborhoodAccessor =
      output.GetNeighborhoodAccessor := by
    unfold Image.GetNeighborhoodAccessor
    simp only [hb]
  have hptr : ∀ p, ({ output with m_Buffer := mem0 } : Image).pixelPointer p =
      output.pixelPointer p := by
    intro p
    unfold Image.pixelPointer
    simp only [hb]
  induction locs generalizing state with
  | nil => simp [sweep]
  | cons p rest ih =>
    obtain ⟨mem, calls⟩ := state
    rw [sweep, sweep, hacc, hptr]
    cases hip : NeighborhoodInnerProduct input self.boundsCondition self.m_Operator p with
    | none => rfl
    | some vn =>
      obtain ⟨v, n⟩ := vn
      simp only []
      cases hset : output.GetNeighborhoodAccessor.Set mem (output.pixelPointer p) v with
      | none => rfl
      | some mem2 => exact ih (mem2, calls + n)

/-- A run with one worker per sub-region is one sweep over the locations of the
sub-regions, taken in order. -/
theorem NeighborhoodOperatorImageFilter.GenerateData_eq_sweep
    (self : NeighborhoodOperatorImageFilter) (input : Image) :
    ∀ (regions : List ImageRegion) (output : Image),
      GenerateData self input regions output =
        (sweep self input output (regions.flatMap ImageRegion.indices)
          (output.m_Buffer, 0)).map (fun state => { output with m_Buffer := state.1 }) := by
  intro regions
  induction regions with
  | nil => intro output; simp [GenerateData, sweep]
  | cons r rest ih =>
    intro output
    rw [GenerateData, ThreadedGenerateData, List.flatMap_cons,
      NeighborhoodOperatorImageFilter.sweep_append]
    cases hsw : sweep self input output r.indices (output.m_Buffer, 0) with
    | none => rfl
    | some state1 =>
      obtain ⟨mem1, calls1⟩ := state1
      simp only []
      have hb := NeighborhoodOperatorImageFilter.sweep_base self input output _ _ _ _ _ hsw
      rw [ih { output with m_Buffer := mem1 },
        NeighborhoodOperatorImageFilter.sweep_output self input output mem1 hb]
      have hcnt := NeighborhoodOperatorImageFilter.sweep_counter self input output
        (rest.flatMap ImageRegion.indices) mem1 0 calls1
      cases h0 : sweep self input output (rest.flatMap ImageRegion.indices) (mem1, 0) with
      | none =>
        rw [h0] at hcnt
        cases h1 : sweep self input output (rest.flatMap ImageRegion.indices) (mem1, calls1) with
        | none => rfl
        | some st => rw [h1] at hcnt; simp at hcnt
      | some st0 =>
        rw [h0] at hcnt
        cases h1 : sweep self input output (rest.flatMap ImageRegion.indices) (mem1, calls1) with
        | none => rw [h1] at hcnt; simp at hcnt
        | some st1 =>
          rw [h1] at hcnt
          simp only [Option.map_some', Option.some.injEq] at hcnt ⊢
          rw [hcnt]

/-! ## The identity operator -/

theorem weightedSum_zero : ∀ (ws : List Int) (samples : List (List Int)) (c : Nat),
    (∀ j, j < ws.length → ws[j]? = some 0) → weightedSum ws samples c = 0 := by
  intro ws
  induction ws with
  | nil => intro samples c _; simp [weightedSum]
  | cons w ws ih =>
    intro samples c h
    cases samples with
    | nil => simp [weightedSum]
    | cons x xs =>
      have hw : w = 0 := by
        have := h 0 (by simp)
        simpa using this
      have hrest : ∀ j, j < ws.length → ws[j]? = some 0 := by
        intro j hj
        have := h (j + 1) (by simpa using hj)
        simpa using this
      rw [weightedSum_cons, ih xs c hrest, hw]
      simp

/-- A weight list that is 1 at position `jc` and 0 elsewhere selects sample `jc`. -/
theorem weightedSum_indicator : ∀ (ws : List Int) (samples : List (List Int)) (jc : Nat)
    (s : List Int) (c : Nat),
    (∀ j, j < ws.length → ws[j]? = some (if j = jc then 1 else 0)) →
    jc < ws.length → samples[jc]? = some s → weightedSum ws samples c = s.getD c 0 := by
  intro ws
  induction ws with
  | nil => intro samples jc s c _ hjc _; simp at hjc
  | cons w ws ih =>
    intro samples jc s c h hjc hs
    cases samples with
    | nil => simp at hs
    | cons x xs =>
      rw [weightedSum_cons]
      cases jc with
      | zero =>
        have hw : w = 1 := by
          have := h 0 (by simp)
          simpa using this
        have hrest : ∀ j, j < ws.length → ws[j]? = some 0 := by
          intro j hj
          have := h (j + 1) (by simpa using hj)
          simpa using this
        simp only [List.getElem?_cons_zero, Option.some.injEq] at hs
        rw [weightedSum_zero ws xs c hrest, hw, hs]
        simp
      | succ k =>
        have hw : w = 0 := by
          have := h 0 (by simp)
          simpa using this
        have hrest : ∀ j, j < ws.length → ws[j]? = some (if j = k then 1 else 0) := by
          intro j hj
          have := h (j + 1) (by simpa using hj)
          simpa using this
        simp only [List.getElem?_cons_succ] at hs
        rw [ih xs k s c hrest (by simpa using hjc) hs, hw]
        simp

theorem center_inside_window : ∀ (radius : List Nat) (p : List Int),
    radius.length = p.length →
      IsInsideAux (List.zipWith (fun (c : Int) (r : Nat) => c - (r : Int)) p radius)
        (radius.map (fun r => 2 * r + 1)) p = true := by
  intro radius
  induction radius with
  | nil =>
    intro p h
    cases p with
    | nil => simp [IsInsideAux]
    | cons p ps => simp at h
  | cons r rs ih =>
    intro p h
    cases p with
    | nil => simp at h
    | cons p ps =>
      rw [List.zipWith_cons_cons, List.map_cons, IsInsideAux_cons]
      refine ⟨?_, ih ps (by simpa using h)⟩
      push_cast
      omega

/-- The logical offset of the centre inside its window does not depend on the
centre. -/
theorem center_offset : ∀ (radius : List Nat) (p p0 : List Int),
    radius.length = p.length → radius.length = p0.length →
      ComputeOffsetAux (List.zipWith (fun (c : Int) (r : Nat) => c - (r : Int)) p radius)
          (radius.map (fun r => 2 * r + 1)) p =
        ComputeOffsetAux (List.zipWith (fun (c : Int) (r : Nat) => c - (r : Int)) p0 radius)
          (radius.map (fun r => 2 * r + 1)) p0 := by
  intro radius
  induction radius with
  | nil => intro p p0 _ _; cases p <;> cases p0 <;> simp [ComputeOffsetAux]
  | cons r rs ih =>
    intro p p0 h h0
    cases p with
    | nil => simp at h
    | cons p ps =>
      cases p0 with
      | nil => simp at h0
      | cons q qs =>
        simp only [List.zipWith_cons_cons, List.map_cons, ComputeOffsetAux]
        rw [ih ps qs (by simpa using h) (by simpa using h0)]
        ring

theorem eq_of_getD (a b : List Int) (L : Nat) (ha : a.length = L) (hb : b.length = L)
    (h : ∀ c, c < L → a.getD c 0 = b.getD c 0) : a = b := by
  apply List.ext_getElem (by rw [ha, hb])
  intro n h1 h2
  have := h n (by omega)
  rw [List.getD_eq_getElem _ _ h1, List.getD_eq_getElem _ _ h2] at this
  exact this

/-- The weighted sum of the samples of a window under the identity operator is
the sample at the centre. -/
theorem weightedSum_identityOperator (img : Image) (bc : ImageBoundaryCondition Int)
    (radius : List Nat) (p : List Int) (samples : List (List Int)) (c : Nat)
    (hr : radius.length = p.length)
    (hp : img.m_BufferedRegion.IsInside p = true)
    (hmap : (windowRegion radius p).indices.map
      (fun q => (NeighborhoodGetPixel img bc radius p q).1) = samples.map some) :
    ∃ s, img.GetPixel p = some s ∧
      weightedSum (identityOperator radius).buffer samples c = s.getD c 0 := by
  have hz : radius.length = (radius.map (fun _ => (0 : Int))).length := by simp
  have hin0 := center_inside_window radius (radius.map (fun _ => (0 : Int))) hz
  have hinp := center_inside_window radius p hr
  obtain ⟨jc, hoff0, hlt0, hidx0⟩ := ComputeOffsetAux_inside _ _ _ hin0
  obtain ⟨jp, hoffp, hltp, hidxp⟩ := ComputeOffsetAux_inside _ _ _ hinp
  have hjj : jp = jc := by
    have := center_offset radius p (radius.map (fun _ => (0 : Int))) hr hz
    rw [hoffp, hoff0] at this
    exact_mod_cast this
  subst hjj
  have hlen0 : (List.zipWith (fun (c : Int) (r : Nat) => c - (r : Int))
      (radius.map (fun _ => (0 : Int))) radius).length =
      (radius.map (fun r => 2 * r + 1)).length := by simp
  -- the sample at the centre
  have hsample : samples[jp]? = (NeighborhoodGetPixel img bc radius p p).1 := by
    have h1 : ((windowRegion radius p).indices.map
        (fun q => (NeighborhoodGetPixel img bc radius p q).1))[jp]? =
        some (NeighborhoodGetPixel img bc radius p p).1 := by
      unfold ImageRegion.indices ImageRegion.GetNumberOfPixels
      rw [List.getElem?_map, List.getElem?_map,
        List.getElem?_range (show jp < (windowRegion radius p).m_Size.prod from hltp)]
      simp only [Option.map_some']
      have : ComputeIndexAux (windowRegion radius p).m_Index (windowRegion radius p).m_Size jp
          = p := hidxp
      rw [this]
    rw [hmap, List.getElem?_map] at h1
    cases hs : samples[jp]? with
    | none => rw [hs] at h1; simp at h1
    | some s =>
      rw [hs] at h1
      simp only [Option.map_some', Option.some.injEq] at h1
      rw [h1]
  have hcenter : (NeighborhoodGetPixel img bc radius p p).1 = img.GetPixel p := by
    unfold NeighborhoodGetPixel
    rw [if_pos hp]
    rfl
  rw [hcenter] at hsample
  cases hs : img.GetPixel p with
  | none =>
    rw [hs] at hsample
    have hjlt : jp < samples.length := by
      have := congrArg List.length hmap
      rw [List.length_map, List.length_map, ImageRegion.length_indices] at this
      rw [← this]
      exact hltp
    rw [List.getElem?_eq_getElem hjlt] at hsample
    simp at hsample
  | some s =>
    rw [hs] at hsample
    refine ⟨s, rfl, ?_⟩
    apply weightedSum_indicator _ samples jp s c ?_ ?_ hsample
    · intro j hj
      have hjn : j < (radius.map (fun r => 2 * r + 1)).prod := by
        simpa [identityOperator, ImageRegion.indices, ImageRegion.GetNumberOfPixels,
          windowRegion] using hj
      unfold identityOperator ImageRegion.indices ImageRegion.GetNumberOfPixels
      simp only []
      rw [List.getElem?_map, List.getElem?_map,
        List.getElem?_range (show j <
          (windowRegion radius (radius.map (fun _ => (0 : Int)))).m_Size.prod from hjn)]
      simp only [Option.map_some', Option.some.injEq]
      have hdec := ComputeIndexAux_inside _ _ j hlen0 hjn
      by_cases hj0 : j = jp
      · subst hj0
        have : ComputeIndexAux (windowRegion radius (radius.map (fun _ => (0 : Int)))).m_Index
            (windowRegion radius (radius.map (fun _ => (0 : Int)))).m_Size j =
            radius.map (fun _ => (0 : Int)) := hidx0
        rw [if_pos this, if_pos rfl]
      · have hne : ComputeIndexAux
            (windowRegion radius (radius.map (fun _ => (0 : Int)))).m_Index
            (windowRegion radius (radius.map (fun _ => (0 : Int)))).m_Size j ≠
            radius.map (fun _ => (0 : Int)) := by
          intro heq
          have h2 := hdec.2
          have heq' : ComputeIndexAux
              (List.zipWith (fun (c : Int) (r : Nat) => c - (r : Int))
                (radius.map (fun _ => (0 : Int))) radius)
              (radius.map (fun r => 2 * r + 1)) j = radius.map (fun _ => (0 : Int)) := heq
          rw [heq', hoff0] at h2
          exact hj0 (by exact_mod_cast h2.symm)
        rw [if_neg hne, if_neg hj0]
    · simpa [identityOperator, ImageRegion.indices, ImageRegion.GetNumberOfPixels,
        windowRegion] using hltp

/-- A sweep whose windows all lie inside the input image invokes no boundary
condition. -/
theorem NeighborhoodOperatorImageFilter.sweep_calls (self : NeighborhoodOperatorImageFilter)
    (input output : Image) :
    ∀ (locs : List (List Int)) (mem : Memory Int) (calls : Nat) (mem1 : Memory Int)
      (calls1 : Nat),
      (∀ p ∈ locs, ∀ q ∈ (windowRegion self.m_Operator.radius p).indices,
        input.m_BufferedRegion.IsInside q = true) →
      sweep self input output locs (mem, calls) = some (mem1, calls1) → calls1 = calls := by
  intro locs
  induction locs with
  | nil =>
    intro mem calls mem1 calls1 _ h
    simp [sweep] at h
    exact h.2.symm
  | cons p rest ih =>
    intro mem calls mem1 calls1 hin h
    rw [sweep] at h
    cases hip : NeighborhoodInnerProduct input self.boundsCondition self.m_Operator p with
    | none => simp [hip] at h
    | some vn =>
      obtain ⟨v, n⟩ := vn
      simp only [hip] at h
      have hn : n = 0 :=
        InnerProductLoop_calls input self.boundsCondition self.m_Operator.radius p _ _ _ _ v n
          (hin p (List.mem_cons_self p rest)) hip
      cases hset : output.GetNeighborhoodAccessor.Set mem (output.pixelPointer p) v with
      | none => simp [hset] at h
      | some mem2 =>
        simp only [hset] at h
        have := ih mem2 (calls + n) mem1 calls1
          (fun q hq => hin q (List.mem_cons_of_mem p hq)) h
        omega

/-! ## The zero-flux extension -/

theorem ClampAux_inside : ∀ (o : List Int) (s : List Nat) (p q : List Int),
    IsInsideAux o s p = true → q.length = s.length →
      IsInsideAux o s (ClampAux o s q) = true := by
  intro o
  induction o with
  | nil =>
    intro s p q hp hq
    cases s <;> cases p <;> simp [IsInsideAux] at hp
    cases q with
    | nil => simp [ClampAux, IsInsideAux]
    | cons q qs => simp at hq
  | cons o os ih =>
    intro s p q hp hq
    cases s with
    | nil => simp [IsInsideAux] at hp
    | cons s ss =>
      cases p with
      | nil => simp [IsInsideAux] at hp
      | cons p ps =>
        cases q with
        | nil => simp at hq
        | cons q qs =>
          rw [IsInsideAux_cons] at hp
          rw [ClampAux, IsInsideAux_cons]
          refine ⟨?_, ih ss ps qs hp.2 (by simpa using hq)⟩
          split_ifs <;> omega

/-- Clamping a window entry into the image keeps it in a window whose centre
lies in the image. -/
theorem ClampAux_inside_window : ∀ (o : List Int) (s : List Nat) (radius : List Nat)
    (p q : List Int),
    IsInsideAux o s p = true →
    IsInsideAux (List.zipWith (fun (c : Int) (r : Nat) => c - (r : Int)) p radius)
      (radius.map (fun r => 2 * r + 1)) q = true →
    IsInsideAux (List.zipWith (fun (c : Int) (r : Nat) => c - (r : Int)) p radius)
      (radius.map (fun r => 2 * r + 1)) (ClampAux o s q) = true := by
  intro o
  induction o with
  | nil =>
    intro s radius p q hp hq
    cases s <;> cases p <;> simp [IsInsideAux] at hp
    cases radius with
    | nil =>
      cases q with
      | nil => simp [ClampAux, IsInsideAux]
      | cons q qs => simp [IsInsideAux] at hq
    | cons r rs =>
      cases q <;> simp [IsInsideAux] at hq
  | cons o os ih =>
    intro s radius p q hp hq
    cases s with
    | nil => simp [IsInsideAux] at hp
    | cons s ss =>
      cases p with
      | nil => simp [IsInsideAux] at hp
      | cons p ps =>
        cases radius with
        | nil =>
          cases q with
          | nil => simp [ClampAux, IsInsideAux]
          | cons q qs => simp [IsInsideAux] at hq
        | cons r rs =>
          cases q with
          | nil => simp [IsInsideAux] at hq
          | cons q qs =>
            rw [IsInsideAux_cons] at hp
            rw [List.zipWith_cons_cons, List.map_cons, IsInsideAux_cons] at hq
            rw [ClampAux, List.zipWith_cons_cons, List.map_cons, IsInsideAux_cons]
            refine ⟨?_, ih ss rs ps qs hp.2 hq.2⟩
            have h1 := hp.1
            have h2 := hq.1
            push_cast at h2 ⊢
            split_ifs <;> omega

/-- The linear index the zero-flux extension computes inside the window is the
logical offset of the clamped position in the window. -/
theorem zeroFlux_linear_index : ∀ (radius : List Nat) (wi q cq : List Int),
    wi.length = radius.length → q.length = radius.length → cq.length = radius.length →
    ComputeOffsetAux (radius.map (fun _ => 0)) (radius.map (fun r => 2 * r + 1))
        (List.zipWith (fun (a b : Int) => a + b) (List.zipWith (fun (a b : Int) => a - b) q wi)
          (List.zipWith (fun (a b : Int) => a - b) cq q)) =
      ComputeOffsetAux wi (radius.map (fun r => 2 * r + 1)) cq := by
  intro radius
  induction radius with
  | nil =>
    intro wi q cq h1 h2 h3
    cases wi <;> cases q <;> cases cq <;> simp at h1 h2 h3
    simp [ComputeOffsetAux]
  | cons r rs ih =>
    intro wi q cq h1 h2 h3
    cases wi with
    | nil => simp at h1
    | cons w ws =>
      cases q with
      | nil => simp at h2
      | cons q qs =>
        cases cq with
        | nil => simp at h3
        | cons c cs =>
          simp only [List.map_cons, List.zipWith_cons_cons, ComputeOffsetAux]
          rw [ih ws qs cs (by simpa using h1) (by simpa using h2) (by simpa using h3)]
          ring

theorem ClampAux_getElem? : ∀ (o : List Int) (s : List Nat) (i : List Int) (a : Nat)
    (lo : Int) (sz : Nat) (x : Int),
    o[a]? = some lo → s[a]? = some sz → i[a]? = some x →
      (ClampAux o s i)[a]? =
        some (if x < lo then lo else if lo + (sz : Int) ≤ x then lo + (sz : Int) - 1 else x) := by
  intro o
  induction o with
  | nil => intro s i a lo sz x h; simp at h
  | cons o os ih =>
    intro s i a lo sz x ho hs hi
    cases s with
    | nil => simp at hs
    | cons s ss =>
      cases i with
      | nil => simp at hi
      | cons i is =>
        cases a with
        | zero =>
          simp only [List.getElem?_cons_zero, Option.some.injEq] at ho hs hi
          subst ho; subst hs; subst hi
          simp [ClampAux]
        | succ a =>
          simp only [List.getElem?_cons_succ] at ho hs hi
          simp only [ClampAux, List.getElem?_cons_succ]
          exact ih ss is a lo sz x ho hs hi

/-- A region that contains a position has no axis of extent 0. -/
theorem IsInsideAux_size_ne_zero : ∀ (o : List Int) (s : List Nat) (i : List Int) (a : Nat),
    IsInsideAux o s i = true → s[a]? = some 0 → False := by
  intro o
  induction o with
  | nil => intro s i a h hs; cases s <;> cases i <;> simp [IsInsideAux] at h hs
  | cons o os ih =>
    intro s i a h hs
    cases s with
    | nil => simp at hs
    | cons s ss =>
      cases i with
      | nil => simp [IsInsideAux] at h
      | cons i is =>
        rw [IsInsideAux_cons] at h
        cases a with
        | zero =>
          simp only [List.getElem?_cons_zero, Option.some.injEq] at hs
          omega
        | succ a =>
          simp only [List.getElem?_cons_succ] at hs
          exact ih ss is a h.2 hs

theorem windowRegion_index_length (radius : List Nat) (center : List Int)
    (h : radius.length = center.length) :
    (windowRegion radius center).m_Index.length = radius.length := by
  simp [windowRegion, h]

/-- The zero-flux extension, asked for a window entry, returns the pixel at the
entry's position clamped into the image. -/
theorem ZeroFluxNeumannBoundaryCondition_spec (img : Image) (radius : List Nat)
    (center ind : List Int)
    (hc : img.m_BufferedRegion.IsInside center = true)
    (hw : (windowRegion radius center).IsInside ind = true)
    (hr : radius.length = img.m_BufferedRegion.m_Size.length) :
    ZeroFluxNeumannBoundaryCondition
        (List.zipWith (fun (a b : Int) => a - b) ind (windowRegion radius center).m_Index)
        (List.zipWith (fun (a b : Int) => a - b)
          (ClampAux img.m_BufferedRegion.m_Index img.m_BufferedRegion.m_Size ind) ind)
        (GetNeighborhood img radius center) img.GetNeighborhoodAccessor img.m_Buffer =
      img.GetPixel (ClampAux img.m_BufferedRegion.m_Index img.m_BufferedRegion.m_Size ind) ∧
    img.m_BufferedRegion.IsInside
      (ClampAux img.m_BufferedRegion.m_Index img.m_BufferedRegion.m_Size ind) = true := by
  unfold ImageRegion.IsInside at hc hw
  have hlc := IsInsideAux_length _ _ _ hc
  have hlw := IsInsideAux_length _ _ _ hw
  have hwsz : (windowRegion radius center).m_Size.length = radius.length := by
    simp [windowRegion]
  have hindlen : ind.length = img.m_BufferedRegion.m_Size.length := by
    rw [hlw.2, hwsz, hr]
  have hcin := ClampAux_inside _ _ center ind hc hindlen
  have hcw : IsInsideAux (windowRegion radius center).m_Index
      (windowRegion radius center).m_Size
      (ClampAux img.m_BufferedRegion.m_Index img.m_BufferedRegion.m_Size ind) = true :=
    ClampAux_inside_window _ _ radius center ind hc hw
  have hcl := IsInsideAux_length _ _ _ hcw
  refine ⟨?_, hcin⟩
  obtain ⟨n, hoff, hlt, hidx⟩ := ComputeOffsetAux_inside _ _ _ hcw
  have hlin := zeroFlux_linear_index radius (windowRegion radius center).m_Index ind
    (ClampAux img.m_BufferedRegion.m_Index img.m_BufferedRegion.m_Size ind)
    (by rw [hlw.1, hwsz]) (by rw [hlw.2, hwsz]) (by rw [hcl.2, hwsz])
  have hsz : (windowRegion radius center).m_Size = radius.map (fun r => 2 * r + 1) := rfl
  rw [hsz] at hoff
  unfold ZeroFluxNeumannBoundaryCondition
  simp only [GetNeighborhood]
  rw [hlin, hoff]
  have hnn : (0 : Int) ≤ (n : Int) := by omega
  rw [if_pos hnn, Int.toNat_ofNat]
  have hbuf : ((windowRegion radius center).indices.map img.pixelPointer)[n]? =
      some (img.pixelPointer
        (ClampAux img.m_BufferedRegion.m_Index img.m_BufferedRegion.m_Size ind)) := by
    unfold ImageRegion.indices ImageRegion.GetNumberOfPixels
    rw [List.getElem?_map, List.getElem?_map, List.getElem?_range hlt]
    simp only [Option.map_some']
    rw [hidx]
  rw [hbuf]
  rfl

/-- In a well-formed image the zero-flux extension resolves every out-of-range
entry of a window centred inside the image to a pixel of the image's component
count. -/
theorem ZeroFluxNeumannBoundaryCondition_resolves (img : Image) (hwf : img.WellFormed)
    (radius : List Nat) (hr : radius.length = img.m_BufferedRegion.m_Size.length)
    (center : List Int) (hc : img.m_BufferedRegion.IsInside center = true) :
    ∀ q ∈ (windowRegion radius center).indices, img.m_BufferedRegion.IsInside q = false →
      ∃ s, (NeighborhoodGetPixel img ZeroFluxNeumannBoundaryCondition radius center q).1 =
        some s ∧ s.length = img.m_VectorLength := by
  intro q hq hout
  have hcl := IsInsideAux_length _ _ _ hc
  have hwl : (windowRegion radius center).m_Index.length =
      (windowRegion radius center).m_Size.length := by
    rw [windowRegion_index_length radius center (by rw [hr, hcl.2])]
    simp [windowRegion]
  have hw := (ImageRegion.mem_indices _ hwl q).mp hq
  obtain ⟨hz, hin⟩ := ZeroFluxNeumannBoundaryCondition_spec img radius center q hc hw hr
  obtain ⟨px, hpx, hl⟩ := Image.GetPixel_inside_length img hwf _ hin
  refine ⟨px, ?_, hl⟩
  unfold NeighborhoodGetPixel
  rw [hout]
  simp only [Bool.false_eq_true, if_false,
    VectorImageNeighborhoodAccessorFunctor.BoundaryCondition]
  rw [hz, hpx]

/-! ## Padding and clipping of regions -/

theorem NeighborhoodOperatorImageFilter.overrideAll_operator :
    ∀ (policies : List ImageBoundaryConditionPointerType)
      (self : NeighborhoodOperatorImageFilter),
      (self.overrideAll policies).m_Operator = self.m_Operator := by
  intro policies
  induction policies with
  | nil => intro self; rfl
  | cons i rest ih =>
    intro self
    unfold NeighborhoodOperatorImageFilter.overrideAll at ih ⊢
    rw [List.foldl_cons, ih]
    rfl

theorem NeighborhoodOperatorImageFilter.overrideAll_append
    (self : NeighborhoodOperatorImageFilter)
    (policies : List ImageBoundaryConditionPointerType) (i : ImageBoundaryConditionPointerType) :
    self.overrideAll (policies ++ [i]) = (self.overrideAll policies).OverrideBoundaryCondition i := by
  unfold NeighborhoodOperatorImageFilter.overrideAll
  rw [List.foldl_append]
  rfl

theorem AccessorCall.apply_invariant (acc : VectorImageNeighborhoodAccessorFunctor)
    (call : AccessorCall) (h : acc.OffsetMultiplierInvariant) :
    (AccessorCall.apply acc call).OffsetMultiplierInvariant := by
  cases call with
  | setBegin begin => exact h
  | setVectorLength length =>
    exact ⟨Nat.mod_lt _ (by norm_num), rfl⟩

theorem VectorImageNeighborhoodAccessorFunctor.runCalls_invariant :
    ∀ (calls : List AccessorCall) (acc : VectorImageNeighborhoodAccessorFunctor),
      acc.OffsetMultiplierInvariant → (acc.runCalls calls).OffsetMultiplierInvariant := by
  intro calls
  induction calls with
  | nil => intro acc h; exact h
  | cons call rest ih =>
    intro acc h
    unfold VectorImageNeighborhoodAccessorFunctor.runCalls at ih ⊢
    rw [List.foldl_cons]
    exact ih _ (AccessorCall.apply_invariant acc call h)

/-- A sequence of calls that contains a `SetVectorLength` establishes the relation
between the two members, whatever the state before. -/
theorem VectorImageNeighborhoodAccessorFunctor.runCalls_invariant_of_setVectorLength :
    ∀ (calls : List AccessorCall) (acc : VectorImageNeighborhoodAccessorFunctor),
      (∃ n, AccessorCall.setVectorLength n ∈ calls) →
        (acc.runCalls calls).OffsetMultiplierInvariant := by
  intro calls
  induction calls with
  | nil => intro acc h; obtain ⟨n, hn⟩ := h; simp at hn
  | cons call rest ih =>
    intro acc h
    obtain ⟨n, hn⟩ := h
    have hstep : acc.runCalls (call :: rest) = (AccessorCall.apply acc call).runCalls rest := by
      unfold VectorImageNeighborhoodAccessorFunctor.runCalls
      rw [List.foldl_cons]
    rw [hstep]
    rcases List.mem_cons.mp hn with h1 | h1
    · apply VectorImageNeighborhoodAccessorFunctor.runCalls_invariant
      rw [← h1]
      exact ⟨Nat.mod_lt _ (by norm_num), rfl⟩
    · exact ih _ ⟨n, h1⟩

/-- A sequence of `SetBegin` calls alone leaves both length members as they were. -/
theorem VectorImageNeighborhoodAccessorFunctor.runCalls_setBegin_only :
    ∀ (calls : List AccessorCall) (acc : VectorImageNeighborhoodAccessorFunctor),
      (∀ n, AccessorCall.setVectorLength n ∉ calls) →
        (acc.runCalls calls).m_VectorLength = acc.m_VectorLength ∧
        (acc.runCalls calls).m_OffsetMultiplier = acc.m_OffsetMultiplier := by
  intro calls
  induction calls with
  | nil => intro acc _; exact ⟨rfl, rfl⟩
  | cons call rest ih =>
    intro acc h
    have hstep : acc.runCalls (call :: rest) = (AccessorCall.apply acc call).runCalls rest := by
      unfold VectorImageNeighborhoodAccessorFunctor.runCalls
      rw [List.foldl_cons]
    rw [hstep]
    have hrest := ih (AccessorCall.apply acc call)
      (fun n hn => h n (List.mem_cons_of_mem call hn))
    cases call with
    | setBegin begin => exact hrest
    | setVectorLength length => exact (h length (List.mem_cons_self _ _)).elim

/-! ## The harmonic loop -/

theorem ChainCodeToFourierSeriesPathFilter.harmonicLoop_length {H : Type}
    (coefficients : Nat → H) (output : FourierSeriesPath H) :
    ∀ count : Nat,
      (ChainCodeToFourierSeriesPathFilter.harmonicLoop coefficients count
        output).harmonics.length = output.harmonics.length + count := by
  intro count
  induction count with
  | zero => rfl
  | succ k ih =>
    rw [ChainCodeToFourierSeriesPathFilter.harmonicLoop]
    simp only [FourierSeriesPath.AddHarmonic, List.length_append, List.length_singleton]
    rw [ih]
    omega

/-- The number of harmonics `GenerateData` leaves in the output is the adjusted
private copy of the requested count, and the filter is returned as it was. -/
theorem ChainCodeToFourierSeriesPathFilter.GenerateData_length {H : Type}
    (self : ChainCodeToFourierSeriesPathFilter) (input : ChainCodePath)
    (output : FourierSeriesPath H) (coefficients : ChainCodePath → Nat → Nat → H) :
    (self.GenerateData input output coefficients).1 = self ∧
    (self.GenerateData input output coefficients).2.harmonics.length =
      ChainCodeToFourierSeriesPathFilter.adjustNumHarmonics self.m_NumberOfHarmonics
        input.NumberOfSteps := by
  refine ⟨rfl, ?_⟩
  unfold ChainCodeToFourierSeriesPathFilter.GenerateData
  simp only []
  rw [ChainCodeToFourierSeriesPathFilter.harmonicLoop_length]
  simp [FourierSeriesPath.Clear]

/-- Below `2^31` requested harmonics the doubling does not wrap, and the adjusted
count is 2 for a request of at most 1 and `min(m, numSteps / 2)` otherwise. -/
theorem ChainCodeToFourierSeriesPathFilter.adjustNumHarmonics_in_range (m numSteps : Nat)
    (hm : m < 2 ^ 31) :
    (m ≤ 1 → ChainCodeToFourierSeriesPathFilter.adjustNumHarmonics m numSteps = 2) ∧
    (2 ≤ m →
      ChainCodeToFourierSeriesPathFilter.adjustNumHarmonics m numSteps = min m (numSteps / 2) ∧
      2 * ChainCodeToFourierSeriesPathFilter.adjustNumHarmonics m numSteps ≤ numSteps) := by
  unfold ChainCodeToFourierSeriesPathFilter.adjustNumHarmonics
  have hwrap : (m * 2) % 2 ^ 32 = m * 2 := by
    apply Nat.mod_eq_of_lt
    norm_num at hm ⊢
    omega
  rw [hwrap]
  refine ⟨?_, ?_⟩
  · intro h
    rw [if_pos h]
  · intro h
    rw [if_neg (by omega)]
    by_cases h2 : m * 2 > numSteps
    · rw [if_pos h2]
      refine ⟨?_, by omega⟩
      rw [Nat.min_def]
      split <;> omega
    · rw [if_neg h2]
      refine ⟨?_, by omega⟩
      rw [Nat.min_def]
      split <;> omega

/-- C1: for a vector length `L ≥ 1`, a buffer bound with `SetBegin` and a logical
index `i` whose pixel lies in the buffer, `Get(Begin + i)` corrects the pointer to
`Begin + i * L` and returns the `L`-component pixel whose `c`-th component is
`buffer[i * L + c]`. -/
theorem Get_reads_pixel {α : Type} (L i : Nat) (mem : Memory α)
    (hL : 1 ≤ L) (hL32 : L < 2 ^ 32) (hi : i * L + L ≤ mem.cells.length) :
    (mem.base + (i : Int)) + ((mem.base + (i : Int)) - mem.base) *
        ((((VectorImageNeighborhoodAccessorFunctor.construct L).SetBegin
          mem.base).m_OffsetMultiplier : Nat) : Int) = mem.base + ((i * L : Nat) : Int) ∧
    ∃ px, ((VectorImageNeighborhoodAccessorFunctor.construct L).SetBegin mem.base).Get mem
        (mem.base + i) = some px ∧ px.length = L ∧
      ∀ c, c < L → px[c]? = mem.cells[i * L + c]? := by
  refine ⟨?_, (mem.cells.drop (i * L)).take L, ?_, ?_, ?_⟩
  · simp only [VectorImageNeighborhoodAccessorFunctor.SetBegin,
      VectorImageNeighborhoodAccessorFunctor.construct]
    rw [offsetMultiplier_eq L hL hL32, truePixelPointer_eq _ _ _ hL]
  · rw [Get_construct L i mem hL hL32, Memory.readN_base_add mem L (i * L) hi]
  · rw [List.length_take, List.length_drop]; omega
  · intro c hc
    exact getElem?_take_drop mem.cells (i * L) L c hc

/-- Witness of C1 on the buffer `[1,10,2,20,3,30]` at address 100, `L = 2`, `i = 1`. -/
theorem Get_reads_pixel_witness :
    ((VectorImageNeighborhoodAccessorFunctor.construct 2).SetBegin 100).Get
      ({ base := 100, cells := [1, 10, 2, 20, 3, 30] } : Memory Int) 101 = some [2, 20] := by
  obtain ⟨_, px, hget, hlen, hc⟩ :=
    Get_reads_pixel 2 1 ({ base := 100, cells := [1, 10, 2, 20, 3, 30] } : Memory Int)
      (by decide) (by decide) (by decide)
  have h0 := hc 0 (by decide)
  have h1 := hc 1 (by decide)
  have hpx : px = [2, 20] := by
    match px, hlen, h0, h1 with
    | [a, b], _, h0, h1 =>
      simp at h0 h1
      rw [h0, h1]
  rw [← hpx]
  exact hget

/-- C2: round trip. For `L ≥ 1`, a valid logical index `i` and a pixel value `v`
of `L` components, `Set(Begin + i, v)` followed by `Get(Begin + i)` on the same
accessor and buffer returns exactly `v`. -/
theorem Set_then_Get {α : Type} (L i : Nat) (mem : Memory α) (v : List α)
    (hL : 1 ≤ L) (hL32 : L < 2 ^ 32) (hv : v.length = L)
    (hi : i * L + L ≤ mem.cells.length) :
    ∃ mem1, ((VectorImageNeighborhoodAccessorFunctor.construct L).SetBegin mem.base).Set mem
        (mem.base + i) v = some mem1 ∧
      ((VectorImageNeighborhoodAccessorFunctor.construct L).SetBegin mem.base).Get mem1
        (mem.base + i) = some v := by
  obtain ⟨m1, hset, hb, hlen, hcells⟩ := SetLoop_spec v mem (i * L) L hi (by omega)
  refine ⟨m1, ?_, ?_⟩
  · rw [Set_construct L i mem v hL hL32, hset]
  · have hget := Get_construct L i m1 hL hL32
    rw [hb] at hget
    rw [hget, ← hb, Memory.readN_base_add m1 L (i * L) (by omega)]
    congr 1
    apply List.ext_getElem?
    intro c
    by_cases hc : c < L
    · rw [getElem?_take_drop _ _ _ _ hc, hcells]
      have hin : i * L ≤ i * L + c ∧ i * L + c < i * L + L := by omega
      have hsub : i * L + c - i * L = c := by omega
      rw [if_pos hin, hsub]
    · rw [List.getElem?_eq_none (by rw [List.length_take]; omega),
        List.getElem?_eq_none (by omega)]

/-- Witness of C2: writing `(7, 70)` at logical index 1 of a 3-pixel buffer. -/
theorem Set_then_Get_witness :
    ∃ mem1, ((VectorImageNeighborhoodAccessorFunctor.construct 2).SetBegin 100).Set
        ({ base := 100, cells := [1, 10, 2, 20, 3, 30] } : Memory Int) (100 + ((1 : Nat) : Int))
        [7, 70] = some mem1 ∧
      ((VectorImageNeighborhoodAccessorFunctor.construct 2).SetBegin 100).Get mem1
        (100 + ((1 : Nat) : Int)) = some [7, 70] :=
  Set_then_Get 2 1 ({ base := 100, cells := [1, 10, 2, 20, 3, 30] } : Memory Int) [7, 70]
    (by decide) (by decide) rfl (by decide)

/-- C3: `Set(Begin + i, v)` applies the offset correction of `Get` (it copies to
`Begin + i * L`), stores `v[c]` at physical slot `i * L + c` for every `c < L`, and
leaves every slot outside `[i * L, i * L + L)` as it was. -/
theorem Set_writes_pixel_only {α : Type} (L i : Nat) (mem : Memory α) (v : List α)
    (hL : 1 ≤ L) (hL32 : L < 2 ^ 32) (hv : v.length = L)
    (hi : i * L + L ≤ mem.cells.length) :
    ((VectorImageNeighborhoodAccessorFunctor.construct L).SetBegin mem.base).Set mem
        (mem.base + i) v =
      VectorImageNeighborhoodAccessorFunctor.SetLoop (mem.base + ((i * L : Nat) : Int)) v L
        mem ∧
    ∃ mem1, ((VectorImageNeighborhoodAccessorFunctor.construct L).SetBegin mem.base).Set mem
        (mem.base + i) v = some mem1 ∧
      mem1.base = mem.base ∧ mem1.cells.length = mem.cells.length ∧
      (∀ c, c < L → mem1.cells[i * L + c]? = v[c]?) ∧
      (∀ k, (k < i * L ∨ i * L + L ≤ k) → mem1.cells[k]? = mem.cells[k]?) := by
  obtain ⟨m1, hset, hb, hlen, hcells⟩ := SetLoop_spec v mem (i * L) L hi (by omega)
  refine ⟨Set_construct L i mem v hL hL32, m1, ?_, hb, hlen, ?_, ?_⟩
  · rw [Set_construct L i mem v hL hL32, hset]
  · intro c hc
    have hin : i * L ≤ i * L + c ∧ i * L + c < i * L + L := by omega
    have hsub : i * L + c - i * L = c := by omega
    rw [hcells, if_pos hin, hsub]
  · intro k hk
    have hout : ¬ (i * L ≤ k ∧ k < i * L + L) := by omega
    rw [hcells, if_neg hout]

/-- Witness of C3: writing `(7, 70)` at logical index 1 changes slots 2 and 3 only. -/
theorem Set_writes_pixel_only_witness :
    ((VectorImageNeighborhoodAccessorFunctor.construct 2).SetBegin 100).Set
      ({ base := 100, cells := [1, 10, 2, 20, 3, 30] } : Memory Int) 101 [7, 70] =
      some { base := 100, cells := [1, 10, 7, 70, 3, 30] } := by
  obtain ⟨_, m1, hset, hb, hlen, hin, hout⟩ :=
    Set_writes_pixel_only 2 1 ({ base := 100, cells := [1, 10, 2, 20, 3, 30] } : Memory Int)
      [7, 70] (by decide) (by decide) rfl (by decide)
  have e0 := hout 0 (by decide)
  have e1 := hout 1 (by decide)
  have e2 := hin 0 (by decide)
  have e3 := hin 1 (by decide)
  have e4 := hout 4 (by decide)
  have e5 := hout 5 (by decide)
  have hm : m1 = { base := 100, cells := [1, 10, 7, 70, 3, 30] } := by
    match m1, hb, hlen, e0, e1, e2, e3, e4, e5 with
    | ⟨b, [a0, a1, a2, a3, a4, a5]⟩, hb, _, e0, e1, e2, e3, e4, e5 =>
      simp at hb e0 e1 e2 e3 e4 e5
      rw [hb, e0, e1, e2, e3, e4, e5]
  rw [← hm]
  exact hset

/-- C4: with `VectorLength = 1` the `OffsetMultiplier` is 0 and, whatever `Begin`
is bound, `Get(p)` for a pointer `p` in the buffer is the one-component value
holding the scalar at `p`, and `Set(p, v)` writes the single component of `v` at
`p` and nowhere else. -/
theorem scalar_accessor_is_dereference {α : Type} (b : Int) (mem : Memory α) (k : Nat)
    (x : α) (hk : k < mem.cells.length) :
    ((VectorImageNeighborhoodAccessorFunctor.construct 1).SetBegin b).m_OffsetMultiplier = 0 ∧
    ((VectorImageNeighborhoodAccessorFunctor.construct 1).SetBegin b).Get mem (mem.base + k)
      = some [mem.cells[k]] ∧
    ((VectorImageNeighborhoodAccessorFunctor.construct 1).SetBegin b).Set mem (mem.base + k)
      [x] = some { base := mem.base, cells := mem.cells.set k x } := by
  have hmul : (1 % 2 ^ 32 + (2 ^ 32 - 1)) % 2 ^ 32 = 0 := by norm_num
  have hlen : 1 % 2 ^ 32 = 1 := by norm_num
  refine ⟨?_, ?_, ?_⟩
  · simp only [VectorImageNeighborhoodAccessorFunctor.SetBegin,
      VectorImageNeighborhoodAccessorFunctor.construct]
    exact hmul
  · simp only [VectorImageNeighborhoodAccessorFunctor.Get,
      VectorImageNeighborhoodAccessorFunctor.SetBegin,
      VectorImageNeighborhoodAccessorFunctor.construct]
    rw [hmul, hlen]
    simp only [Nat.cast_zero, mul_zero, add_zero]
    have h := Memory.readN_base_add mem 1 k (by omega)
    rw [h, List.drop_eq_getElem_cons hk, List.take_succ_cons, List.take_zero]
  · simp only [VectorImageNeighborhoodAccessorFunctor.Set,
      VectorImageNeighborhoodAccessorFunctor.SetBegin,
      VectorImageNeighborhoodAccessorFunctor.construct]
    rw [hmul, hlen]
    simp only [Nat.cast_zero, mul_zero, add_zero,
      VectorImageNeighborhoodAccessorFunctor.SetLoop]
    simp only [List.getElem?_cons_zero]
    exact Memory.write_base_add mem k x hk

/-- Witness of C4 on the scalar buffer `[4, 5, 6]` at address 50, with `Begin`
bound to an unrelated address. -/
theorem scalar_accessor_is_dereference_witness :
    ((VectorImageNeighborhoodAccessorFunctor.construct 1).SetBegin 7).m_OffsetMultiplier = 0 ∧
    ((VectorImageNeighborhoodAccessorFunctor.construct 1).SetBegin 7).Get
      ({ base := 50, cells := [4, 5, 6] } : Memory Int) (50 + ((2 : Nat) : Int)) = some [6] ∧
    ((VectorImageNeighborhoodAccessorFunctor.construct 1).SetBegin 7).Set
      ({ base := 50, cells := [4, 5, 6] } : Memory Int) (50 + ((2 : Nat) : Int)) [9] =
      some { base := 50, cells := [4, 5, 9] } :=
  scalar_accessor_is_dereference 7 ({ base := 50, cells := [4, 5, 6] } : Memory Int) 2 9
    (by decide)

/-- C10: the accessor's `BoundaryCondition(point_index, boundary_offset, data, bc)`
returns exactly what the call operator of `bc` returns for
`(point_index, boundary_offset, data, this accessor)`. -/
theorem BoundaryCondition_delegates {α : Type}
    (self : VectorImageNeighborhoodAccessorFunctor) (bc : ImageBoundaryCondition α)
    (point_index boundary_offset : List Int) (data : Neighborhood Int) (mem : Memory α) :
    self.BoundaryCondition point_index boundary_offset data bc mem =
      bc point_index boundary_offset data self mem :=
  rfl

/-! ## Claims on the filter -/

theorem replicate_zero_getD (L c : Nat) : (List.replicate L (0 : Int)).getD c 0 = 0 := by
  rw [List.getD_eq_getElem?_getD, List.getElem?_replicate]
  split <;> rfl

theorem windowRegion_numberOfPixels (radius : List Nat) (center : List Int) :
    (windowRegion radius center).GetNumberOfPixels = (radius.map (fun r => 2 * r + 1)).prod :=
  rfl

/-- The inner product at one location, when every out-of-range window entry is
resolved by the boundary condition to a pixel of the image's component count. -/
theorem NeighborhoodInnerProduct_spec (img : Image) (bc : ImageBoundaryCondition Int)
    (op : Neighborhood Int) (center : List Int) (hwf : img.WellFormed)
    (hop : op.buffer.length = (op.radius.map (fun r => 2 * r + 1)).prod)
    (hbc : ∀ q ∈ (windowRegion op.radius center).indices,
      img.m_BufferedRegion.IsInside q = false →
        ∃ s, (NeighborhoodGetPixel img bc op.radius center q).1 = some s ∧
          s.length = img.m_VectorLength) :
    ∃ v n samples, NeighborhoodInnerProduct img bc op center = some (v, n) ∧
      v.length = img.m_VectorLength ∧
      (windowRegion op.radius center).indices.map
          (fun q => (NeighborhoodGetPixel img bc op.radius center q).1) = samples.map some ∧
      ∀ c, c < img.m_VectorLength → v.getD c 0 = weightedSum op.buffer samples c := by
  have hres : ∀ q ∈ (windowRegion op.radius center).indices,
      ∃ s, (NeighborhoodGetPixel img bc op.radius center q).1 = some s ∧
        s.length = img.m_VectorLength := by
    intro q hq
    cases hins : img.m_BufferedRegion.IsInside q with
    | false => exact hbc q hq hins
    | true =>
      obtain ⟨px, hpx, hl⟩ := Image.GetPixel_inside_length img hwf q hins
      refine ⟨px, ?_, hl⟩
      unfold NeighborhoodGetPixel
      rw [if_pos hins]
      exact hpx
  obtain ⟨v, n, samples, hloop, hvl, hmap, hv⟩ :=
    InnerProductLoop_spec img bc op.radius center img.m_VectorLength op.buffer
      (windowRegion op.radius center).indices (List.replicate img.m_VectorLength 0) 0
      (by rw [ImageRegion.length_indices, windowRegion_numberOfPixels, hop])
      (List.length_replicate _ _) hres
  refine ⟨v, n, samples, hloop, hvl, hmap, ?_⟩
  intro c hc
  rw [hv c hc, replicate_zero_getD, zero_add]

/-- The sweep of one worker over a region of a well-formed output image: it
returns, and the pixel read back at every location of the region is the inner
product computed there. -/
theorem NeighborhoodOperatorImageFilter.ThreadedGenerateData_spec
    (self : NeighborhoodOperatorImageFilter) (input output : Image) (region : ImageRegion)
    (hout : output.WellFormed)
    (hR : region.m_Index.length = region.m_Size.length)
    (hsub : ∀ p, region.IsInside p = true → output.m_BufferedRegion.IsInside p = true)
    (hip : ∀ p, region.IsInside p = true →
      ∃ v n, NeighborhoodInnerProduct input self.boundsCondition self.m_Operator p =
        some (v, n) ∧ v.length = output.m_VectorLength) :
    ∃ mem1 calls, sweep self input output region.indices (output.m_Buffer, 0) =
        some (mem1, calls) ∧
      self.ThreadedGenerateData input output region =
        some ({ output with m_Buffer := mem1 }, calls) ∧
      ({ output with m_Buffer := mem1 } : Image).WellFormed ∧
      ∀ p, region.IsInside p = true →
        ∃ v n, NeighborhoodInnerProduct input self.boundsCondition self.m_Operator p =
          some (v, n) ∧ ({ output with m_Buffer := mem1 } : Image).GetPixel p = some v := by
  have hlocs : ∀ p ∈ region.indices, output.m_BufferedRegion.IsInside p = true ∧
      ∃ v n, NeighborhoodInnerProduct input self.boundsCondition self.m_Operator p =
        some (v, n) ∧ v.length = output.m_VectorLength := by
    intro p hp
    have hp1 := (ImageRegion.mem_indices region hR p).mp hp
    exact ⟨hsub p hp1, hip p hp1⟩
  obtain ⟨mem1, calls, hsw, hb, hl, hc⟩ :=
    NeighborhoodOperatorImageFilter.sweep_spec self input output hout region.indices
      output.m_Buffer 0 rfl rfl hlocs
  have hwf1 : ({ output with m_Buffer := mem1 } : Image).WellFormed :=
    ⟨hout.1, hout.2.1, hout.2.2.1, by rw [hl]; exact hout.2.2.2⟩
  refine ⟨mem1, calls, hsw, ?_, hwf1, ?_⟩
  · unfold NeighborhoodOperatorImageFilter.ThreadedGenerateData
    rw [hsw]
  · intro p hp
    obtain ⟨v, n, hv, hvl⟩ := hip p hp
    refine ⟨v, n, hv, ?_⟩
    obtain ⟨m, hoff, hlt, hidx, hget⟩ :=
      Image.GetPixel_inside ({ output with m_Buffer := mem1 } : Image) hwf1 p (hsub p hp)
    rw [hget]
    simp only []
    congr 1
    have hfit := Image.pixel_in_buffer output hout m hlt
    apply List.ext_getElem?
    intro c
    by_cases hcL : c < output.m_VectorLength
    · have hk : m * output.m_VectorLength + c < output.m_Buffer.cells.length := by omega
      have hdiv : (m * output.m_VectorLength + c) / output.m_VectorLength = m :=
        Nat.div_eq_of_lt_le (by omega) (by rw [Nat.succ_mul]; omega)
      have hmod : (m * output.m_VectorLength + c) % output.m_VectorLength = c := by
        have := Nat.div_add_mod (m * output.m_VectorLength + c) output.m_VectorLength
        rw [hdiv, Nat.mul_comm] at this
        omega
      rw [getElem?_take_drop _ _ _ _ hcL, hc _ hk, hdiv, hidx,
        if_pos ((ImageRegion.mem_indices region hR p).mpr hp)]
      unfold sweepCell
      rw [hdiv, hidx, hv, hmod]
    · rw [List.getElem?_eq_none (by rw [List.length_take]; omega),
        List.getElem?_eq_none (by omega)]

/-- The general form of the sweep's result: at every location of the region the
pixel read back from the output is the weighted sum of the resolved samples. -/
theorem NeighborhoodOperatorImageFilter.ThreadedGenerateData_weightedSum
    (self : NeighborhoodOperatorImageFilter)
    (input output : Image) (region : ImageRegion)
    (hin : input.WellFormed) (hout : output.WellFormed)
    (hL : output.m_VectorLength = input.m_VectorLength)
    (hR : region.m_Index.length = region.m_Size.length)
    (hsub : ∀ p, region.IsInside p = true → output.m_BufferedRegion.IsInside p = true)
    (hop : self.m_Operator.buffer.length =
      (self.m_Operator.radius.map (fun r => 2 * r + 1)).prod)
    (hbc : ∀ p, region.IsInside p = true →
      ∀ q ∈ (windowRegion self.m_Operator.radius p).indices,
        input.m_BufferedRegion.IsInside q = false →
          ∃ s, (NeighborhoodGetPixel input self.boundsCondition self.m_Operator.radius p q).1 =
            some s ∧ s.length = input.m_VectorLength) :
    ∃ output1 calls, self.ThreadedGenerateData input output region = some (output1, calls) ∧
      output1.m_BufferedRegion = output.m_BufferedRegion ∧
      output1.m_VectorLength = output.m_VectorLength ∧
      ∀ p, region.IsInside p = true →
        ∃ samples px,
          (windowRegion self.m_Operator.radius p).indices.map
            (fun q => (NeighborhoodGetPixel input self.boundsCondition
              self.m_Operator.radius p q).1) = samples.map some ∧
          output1.GetPixel p = some px ∧ px.length = input.m_VectorLength ∧
          ∀ c, c < input.m_VectorLength →
            px.getD c 0 = weightedSum self.m_Operator.buffer samples c := by
  have hip : ∀ p, region.IsInside p = true →
      ∃ v n, NeighborhoodInnerProduct input self.boundsCondition self.m_Operator p =
        some (v, n) ∧ v.length = output.m_VectorLength := by
    intro p hp
    obtain ⟨v, n, _, hv, hvl, _, _⟩ :=
      NeighborhoodInnerProduct_spec input self.boundsCondition self.m_Operator p hin hop
        (hbc p hp)
    exact ⟨v, n, hv, by rw [hvl, hL]⟩
  obtain ⟨mem1, calls, _, htgd, _, hpix⟩ :=
    NeighborhoodOperatorImageFilter.ThreadedGenerateData_spec self input output region hout hR
      hsub hip
  refine ⟨{ output with m_Buffer := mem1 }, calls, htgd, rfl, rfl, ?_⟩
  intro p hp
  obtain ⟨v, n, samples, hv, hvl, hmap, hsum⟩ :=
    NeighborhoodInnerProduct_spec input self.boundsCondition self.m_Operator p hin hop
      (hbc p hp)
  obtain ⟨v1, n1, hv1, hget⟩ := hpix p hp
  rw [hv] at hv1
  simp only [Option.some.injEq, Prod.mk.injEq] at hv1
  refine ⟨samples, v, hmap, ?_, hvl, hsum⟩
  rw [hget, ← hv1.1]

/-- C5: for every location `p` of the output region the sweep writes
`output[p] = Σ_k operator[k] * sample(p + k)`, the samples being the window
entries resolved through the accessor (in range) or the boundary condition (out
of range); and on the 1-D image `[1,2,3,4,5]` with the operator `[1,0,-1]` and
the default zero-flux boundary condition the output is `[-1,-2,-2,-2,-1]`. -/
theorem ThreadedGenerateData_inner_product (self : NeighborhoodOperatorImageFilter)
    (input output : Image) (region : ImageRegion)
    (hin : input.WellFormed) (hout : output.WellFormed)
    (hL : output.m_VectorLength = input.m_VectorLength)
    (hR : region.m_Index.length = region.m_Size.length)
    (hsub : ∀ p, region.IsInside p = true → output.m_BufferedRegion.IsInside p = true)
    (hop : self.m_Operator.buffer.length =
      (self.m_Operator.radius.map (fun r => 2 * r + 1)).prod)
    (hbc : ∀ p, region.IsInside p = true →
      ∀ q ∈ (windowRegion self.m_Operator.radius p).indices,
        input.m_BufferedRegion.IsInside q = false →
          ∃ s, (NeighborhoodGetPixel input self.boundsCondition self.m_Operator.radius p q).1 =
            some s ∧ s.length = input.m_VectorLength) :
    (∃ output1 calls, self.ThreadedGenerateData input output region = some (output1, calls) ∧
      output1.m_BufferedRegion = output.m_BufferedRegion ∧
      output1.m_VectorLength = output.m_VectorLength ∧
      ∀ p, region.IsInside p = true →
        ∃ samples px,
          (windowRegion self.m_Operator.radius p).indices.map
            (fun q => (NeighborhoodGetPixel input self.boundsCondition
              self.m_Operator.radius p q).1) = samples.map some ∧
          output1.GetPixel p = some px ∧ px.length = input.m_VectorLength ∧
          ∀ c, c < input.m_VectorLength →
            px.getD c 0 = weightedSum self.m_Operator.buffer samples c) ∧
    scenarioDifferenceFilter.ThreadedGenerateData scenarioImage5 scenarioOutput5
        { m_Index := [0], m_Size := [5] } =
      some ({ scenarioOutput5 with
        m_Buffer := { base := 2000, cells := [-1, -2, -2, -2, -1] } }, 2) :=
  ⟨NeighborhoodOperatorImageFilter.ThreadedGenerateData_weightedSum self input output region
    hin hout hL hR hsub hop hbc, by decide⟩

/-- Witness of C5 on the scenario of the specification: the hypotheses hold for the
5-pixel image and the sweep returns `[-1,-2,-2,-2,-1]` after 2 boundary lookups. -/
theorem ThreadedGenerateData_inner_product_witness :
    (∃ output1 calls, scenarioDifferenceFilter.ThreadedGenerateData scenarioImage5
        scenarioOutput5 { m_Index := [0], m_Size := [5] } = some (output1, calls) ∧
      output1.m_BufferedRegion = scenarioOutput5.m_BufferedRegion ∧
      output1.m_VectorLength = scenarioOutput5.m_VectorLength ∧
      ∀ p, ImageRegion.IsInside { m_Index := [0], m_Size := [5] } p = true →
        ∃ samples px,
          (windowRegion scenarioDifferenceFilter.m_Operator.radius p).indices.map
            (fun q => (NeighborhoodGetPixel scenarioImage5 scenarioDifferenceFilter.boundsCondition
              scenarioDifferenceFilter.m_Operator.radius p q).1) = samples.map some ∧
          output1.GetPixel p = some px ∧ px.length = scenarioImage5.m_VectorLength ∧
          ∀ c, c < scenarioImage5.m_VectorLength →
            px.getD c 0 = weightedSum scenarioDifferenceFilter.m_Operator.buffer samples c) ∧
    scenarioDifferenceFilter.ThreadedGenerateData scenarioImage5 scenarioOutput5
        { m_Index := [0], m_Size := [5] } =
      some ({ scenarioOutput5 with
        m_Buffer := { base := 2000, cells := [-1, -2, -2, -2, -1] } }, 2) :=
  ThreadedGenerateData_inner_product scenarioDifferenceFilter scenarioImage5 scenarioOutput5
    { m_Index := [0], m_Size := [5] } (by decide) (by decide) rfl rfl (fun _ h => h)
    (by decide)
    (fun p hp => ZeroFluxNeumannBoundaryCondition_resolves scenarioImage5 (by decide) [1] rfl
      p hp)

/-- C6 (as amended): for every input image (scalar or vector), every identity
operator and every boundary policy that resolves the out-of-range window entries,
the output of the sweep equals the input at every location of the output region;
the boundary policy is not invoked when no window reaches outside the input image. -/
theorem identity_operator_output_equals_input (self : NeighborhoodOperatorImageFilter)
    (radius : List Nat) (input output : Image) (region : ImageRegion)
    (hid : self.m_Operator = identityOperator radius)
    (hr : radius.length = input.m_BufferedRegion.m_Size.length)
    (hin : input.WellFormed) (hout : output.WellFormed)
    (hL : output.m_VectorLength = input.m_VectorLength)
    (hR : region.m_Index.length = region.m_Size.length)
    (hsubO : ∀ p, region.IsInside p = true → output.m_BufferedRegion.IsInside p = true)
    (hsubI : ∀ p, region.IsInside p = true → input.m_BufferedRegion.IsInside p = true)
    (hbc : ∀ p, region.IsInside p = true →
      ∀ q ∈ (windowRegion radius p).indices,
        input.m_BufferedRegion.IsInside q = false →
          ∃ s, (NeighborhoodGetPixel input self.boundsCondition radius p q).1 = some s ∧
            s.length = input.m_VectorLength) :
    ∃ output1 calls, self.ThreadedGenerateData input output region = some (output1, calls) ∧
      (∀ p, region.IsInside p = true →
        ∃ px, input.GetPixel p = some px ∧ output1.GetPixel p = some px) ∧
      ((∀ p, region.IsInside p = true → ∀ q ∈ (windowRegion radius p).indices,
          input.m_BufferedRegion.IsInside q = true) → calls = 0) := by
  have hrad : self.m_Operator.radius = radius := by rw [hid]; rfl
  have hop : self.m_Operator.buffer.length =
      (self.m_Operator.radius.map (fun r => 2 * r + 1)).prod := by
    rw [hid]
    simp [identityOperator, ImageRegion.indices, ImageRegion.GetNumberOfPixels, windowRegion]
  obtain ⟨output1, calls, htgd, _, _, hpix⟩ :=
    NeighborhoodOperatorImageFilter.ThreadedGenerateData_weightedSum self input output region
      hin hout hL hR hsubO hop (by rw [hrad]; exact hbc)
  refine ⟨output1, calls, htgd, ?_, ?_⟩
  · intro p hp
    obtain ⟨samples, px, hmap, hget, hpl, hsum⟩ := hpix p hp
    rw [hrad] at hmap
    have hpin := hsubI p hp
    have hplen : radius.length = p.length := by
      have := IsInsideAux_length _ _ _ hpin
      rw [hr, this.2]
    obtain ⟨s, hs, _⟩ := Image.GetPixel_inside_length input hin p hpin
    have hsl : s.length = input.m_VectorLength := by
      obtain ⟨s1, hs1, hl1⟩ := Image.GetPixel_inside_length input hin p hpin
      rw [hs] at hs1
      simp only [Option.some.injEq] at hs1
      rw [hs1]; exact hl1
    refine ⟨s, hs, ?_⟩
    rw [hget]
    congr 1
    apply eq_of_getD px s input.m_VectorLength hpl hsl
    intro c hc
    obtain ⟨s2, hs2, hw⟩ :=
      weightedSum_identityOperator input self.boundsCondition radius p samples c hplen hpin hmap
    rw [hs] at hs2
    simp only [Option.some.injEq] at hs2
    rw [hsum c hc, hid, hw, hs2]
  · intro hall
    unfold NeighborhoodOperatorImageFilter.ThreadedGenerateData at htgd
    cases hsw : NeighborhoodOperatorImageFilter.sweep self input output region.indices
        (output.m_Buffer, 0) with
    | none => simp [hsw] at htgd
    | some st =>
      obtain ⟨mem1, calls1⟩ := st
      simp only [hsw, Option.some.injEq, Prod.mk.injEq] at htgd
      have := NeighborhoodOperatorImageFilter.sweep_calls self input output region.indices
        output.m_Buffer 0 mem1 calls1
        (fun p hp => by
          rw [hrad]
          exact hall p ((ImageRegion.mem_indices region hR p).mp hp)) hsw
      omega

/-- Witness of C6 (as amended) on the 2-component image `[(1,10),(2,20),(3,30)]`
with the identity operator of radius 1 and the default zero-flux policy. -/
theorem identity_operator_output_equals_input_witness :
    ∃ output1 calls,
      (NeighborhoodOperatorImageFilter.construct.SetOperator
        (identityOperator [1])).ThreadedGenerateData scenarioVectorImage3 scenarioVectorOutput3
        { m_Index := [0], m_Size := [3] } = some (output1, calls) ∧
      (∀ p, ImageRegion.IsInside { m_Index := [0], m_Size := [3] } p = true →
        ∃ px, scenarioVectorImage3.GetPixel p = some px ∧ output1.GetPixel p = some px) ∧
      ((∀ p, ImageRegion.IsInside { m_Index := [0], m_Size := [3] } p = true →
        ∀ q ∈ (windowRegion [1] p).indices,
          scenarioVectorImage3.m_BufferedRegion.IsInside q = true) → calls = 0) :=
  identity_operator_output_equals_input
    (NeighborhoodOperatorImageFilter.construct.SetOperator (identityOperator [1])) [1]
    scenarioVectorImage3 scenarioVectorOutput3 { m_Index := [0], m_Size := [3] } rfl rfl
    (by decide) (by decide) rfl rfl (fun _ h => h) (fun _ h => h)
    (fun p hp => ZeroFluxNeumannBoundaryCondition_resolves scenarioVectorImage3 (by decide) [1]
      rfl p hp)

/-- Counterexample to C6 as stated: on the 2-component image
`[(1,10),(2,20),(3,30)]` the identity operator of radius 1 reproduces the input,
but the boundary policy is invoked during the sweep (twice: once at each end). -/
theorem identity_operator_invokes_boundary_condition :
    (NeighborhoodOperatorImageFilter.construct.SetOperator
      (identityOperator [1])).ThreadedGenerateData scenarioVectorImage3 scenarioVectorOutput3
      { m_Index := [0], m_Size := [3] } =
        some ({ scenarioVectorOutput3 with
          m_Buffer := { base := 2000, cells := [1, 10, 2, 20, 3, 30] } }, 2) ∧
    ¬ ∃ output1,
      (NeighborhoodOperatorImageFilter.construct.SetOperator
        (identityOperator [1])).ThreadedGenerateData scenarioVectorImage3 scenarioVectorOutput3
        { m_Index := [0], m_Size := [3] } = some (output1, 0) := by
  have h : (NeighborhoodOperatorImageFilter.construct.SetOperator
      (identityOperator [1])).ThreadedGenerateData scenarioVectorImage3 scenarioVectorOutput3
      { m_Index := [0], m_Size := [3] } =
        some ({ scenarioVectorOutput3 with
          m_Buffer := { base := 2000, cells := [1, 10, 2, 20, 3, 30] } }, 2) := by decide
  refine ⟨h, ?_⟩
  rintro ⟨output1, h0⟩
  rw [h] at h0
  simp at h0

/-- C7: with the default zero-flux boundary condition of the filter, a window
entry lying outside the image (by any distance `d > 0` on any axis) is resolved to
the value of the pixel at its position clamped into the image, that is, on every
axis where it is out of range, to the nearest valid boundary pixel. -/
theorem zeroFlux_returns_nearest_boundary_pixel (img : Image) (radius : List Nat)
    (center ind : List Int) (hwf : img.WellFormed)
    (hr : radius.length = img.m_BufferedRegion.m_Size.length)
    (hc : img.m_BufferedRegion.IsInside center = true)
    (hw : (windowRegion radius center).IsInside ind = true)
    (hout : img.m_BufferedRegion.IsInside ind = false) :
    NeighborhoodGetPixel img NeighborhoodOperatorImageFilter.construct.boundsCondition radius
        center ind =
      (img.GetPixel (ClampAux img.m_BufferedRegion.m_Index img.m_BufferedRegion.m_Size ind),
        1) ∧
    img.m_BufferedRegion.IsInside
      (ClampAux img.m_BufferedRegion.m_Index img.m_BufferedRegion.m_Size ind) = true ∧
    (∃ px, img.GetPixel
        (ClampAux img.m_BufferedRegion.m_Index img.m_BufferedRegion.m_Size ind) = some px ∧
      px.length = img.m_VectorLength) ∧
    ∀ (a : Nat) (d lo : Int) (sz : Nat) (x : Int), 0 < d →
      img.m_BufferedRegion.m_Index[a]? = some lo →
      img.m_BufferedRegion.m_Size[a]? = some sz → ind[a]? = some x →
        (x = lo - d →
          (ClampAux img.m_BufferedRegion.m_Index img.m_BufferedRegion.m_Size ind)[a]? =
            some lo) ∧
        (x = lo + (sz : Int) - 1 + d →
          (ClampAux img.m_BufferedRegion.m_Index img.m_BufferedRegion.m_Size ind)[a]? =
            some (lo + (sz : Int) - 1)) ∧
        (lo ≤ x ∧ x < lo + (sz : Int) →
          (ClampAux img.m_BufferedRegion.m_Index img.m_BufferedRegion.m_Size ind)[a]? =
            some x) := by
  obtain ⟨hz, hin⟩ := ZeroFluxNeumannBoundaryCondition_spec img radius center ind hc hw hr
  refine ⟨?_, hin, Image.GetPixel_inside_length img hwf _ hin, ?_⟩
  · unfold NeighborhoodGetPixel
    rw [hout]
    simp only [Bool.false_eq_true, if_false,
      VectorImageNeighborhoodAccessorFunctor.BoundaryCondition]
    rw [← hz]
    rfl
  · intro a d lo sz x hd hlo hsz hx
    have hcl := ClampAux_getElem? _ _ ind a lo sz x hlo hsz hx
    have hsz0 : 0 < sz := by
      rcases Nat.eq_zero_or_pos sz with hz0 | hpos
      · subst hz0
        exact (IsInsideAux_size_ne_zero _ _ _ a hc hsz).elim
      · exact hpos
    refine ⟨?_, ?_, ?_⟩
    · intro hxe
      rw [hcl, if_pos (by omega)]
    · intro hxe
      rw [hcl, if_neg (by omega), if_pos (by omega)]
    · intro hxe
      rw [hcl, if_neg (by omega), if_neg (by omega)]

/-- Witness of C7: in the 5-pixel image `[1,2,3,4,5]`, the entry 2 positions past
the last pixel of a radius-2 window centred at the last pixel resolves to 5. -/
theorem zeroFlux_returns_nearest_boundary_pixel_witness :
    NeighborhoodGetPixel scenarioImage5 NeighborhoodOperatorImageFilter.construct.boundsCondition
      [2] [4] [6] = (some [5], 1) := by
  have h := (zeroFlux_returns_nearest_boundary_pixel scenarioImage5 [2] [4] [6] (by decide) rfl
    (by decide) (by decide) (by decide)).1
  rw [h]
  decide

/-- C9: partitioning invariance. Running the filter with the output region split
into `K` sub-regions whose union is the output region (one worker per sub-region)
leaves exactly the output image that a single worker leaves on the whole region.
Neither `K ≥ 1` nor the pairwise disjointness of the sub-regions is needed: a
location visited twice is written the same value twice. -/
theorem partitioning_invariance (self : NeighborhoodOperatorImageFilter)
    (input output : Image) (region : ImageRegion) (subRegions : List ImageRegion)
    (hin : input.WellFormed) (hout : output.WellFormed)
    (hL : output.m_VectorLength = input.m_VectorLength)
    (hR : region.m_Index.length = region.m_Size.length)
    (hsub : ∀ p, region.IsInside p = true → output.m_BufferedRegion.IsInside p = true)
    (hop : self.m_Operator.buffer.length =
      (self.m_Operator.radius.map (fun r => 2 * r + 1)).prod)
    (hbc : ∀ p, region.IsInside p = true →
      ∀ q ∈ (windowRegion self.m_Operator.radius p).indices,
        input.m_BufferedRegion.IsInside q = false →
          ∃ s, (NeighborhoodGetPixel input self.boundsCondition self.m_Operator.radius p q).1 =
            some s ∧ s.length = input.m_VectorLength)
    (hsubR : ∀ r ∈ subRegions, r.m_Index.length = r.m_Size.length)
    (hunion : ∀ p, region.IsInside p = true ↔ ∃ r ∈ subRegions, r.IsInside p = true) :
    ∃ output1 calls, self.ThreadedGenerateData input output region = some (output1, calls) ∧
      self.GenerateData input subRegions output = some output1 := by
  have hlocs : ∀ p ∈ region.indices, output.m_BufferedRegion.IsInside p = true ∧
      ∃ v n, NeighborhoodInnerProduct input self.boundsCondition self.m_Operator p =
        some (v, n) ∧ v.length = output.m_VectorLength := by
    intro p hp
    have hp1 := (ImageRegion.mem_indices region hR p).mp hp
    obtain ⟨v, n, _, hv, hvl, _, _⟩ :=
      NeighborhoodInnerProduct_spec input self.boundsCondition self.m_Operator p hin hop
        (hbc p hp1)
    exact ⟨hsub p hp1, v, n, hv, by rw [hvl, hL]⟩
  have hsame : ∀ p, p ∈ region.indices ↔ p ∈ subRegions.flatMap ImageRegion.indices := by
    intro p
    rw [ImageRegion.mem_indices region hR p, hunion p, List.mem_flatMap]
    constructor
    · rintro ⟨r, hr, hp⟩
      exact ⟨r, hr, (ImageRegion.mem_indices r (hsubR r hr) p).mpr hp⟩
    · rintro ⟨r, hr, hp⟩
      exact ⟨r, hr, (ImageRegion.mem_indices r (hsubR r hr) p).mp hp⟩
  obtain ⟨mem1, n1, n2, h1, h2⟩ :=
    NeighborhoodOperatorImageFilter.sweep_congr self input output hout region.indices
      (subRegions.flatMap ImageRegion.indices) output.m_Buffer 0 0 rfl rfl hlocs hsame
  refine ⟨{ output with m_Buffer := mem1 }, n1, ?_, ?_⟩
  · unfold NeighborhoodOperatorImageFilter.ThreadedGenerateData
    rw [h1]
  · rw [NeighborhoodOperatorImageFilter.GenerateData_eq_sweep, h2]
    rfl

/-- Witness of C9: the 5-pixel scenario run by two workers, on `[0,2)` and `[2,5)`. -/
theorem partitioning_invariance_witness :
    ∃ output1 calls,
      scenarioDifferenceFilter.ThreadedGenerateData scenarioImage5 scenarioOutput5
        { m_Index := [0], m_Size := [5] } = some (output1, calls) ∧
      scenarioDifferenceFilter.GenerateData scenarioImage5
        [{ m_Index := [0], m_Size := [2] }, { m_Index := [2], m_Size := [3] }]
        scenarioOutput5 = some output1 :=
  partitioning_invariance scenarioDifferenceFilter scenarioImage5 scenarioOutput5
    { m_Index := [0], m_Size := [5] }
    [{ m_Index := [0], m_Size := [2] }, { m_Index := [2], m_Size := [3] }]
    (by decide) (by decide) rfl rfl (fun _ h => h) (by decide)
    (fun p hp => ZeroFluxNeumannBoundaryCondition_resolves scenarioImage5 (by decide) [1] rfl
      p hp)
    (by
      intro r hr
      simp only [List.mem_cons, List.mem_singleton, List.not_mem_nil, or_false] at hr
      rcases hr with rfl | rfl <;> rfl)
    (by
      intro p
      simp only [List.mem_cons, List.not_mem_nil, or_false, exists_eq_or_imp, exists_eq_left]
      match p with
      | [] => simp [ImageRegion.IsInside, IsInsideAux]
      | [x] =>
        simp only [ImageRegion.IsInside, IsInsideAux, Bool.and_true, Bool.and_eq_true,
          decide_eq_true_eq]
        omega
      | _ :: _ :: _ => simp [ImageRegion.IsInside, IsInsideAux])

/-- C11: on a freshly constructed filter `GetBoundaryCondition()` refers to the
filter's own default condition, which is the zero-flux one; after any sequence of
`OverrideBoundaryCondition` calls `GetBoundaryCondition()` returns the policy
passed to the most recent call; and no such call changes the stored operator. -/
theorem GetBoundaryCondition_default_then_last_override
    (self : NeighborhoodOperatorImageFilter)
    (policies : List ImageBoundaryConditionPointerType)
    (i : ImageBoundaryConditionPointerType) :
    (NeighborhoodOperatorImageFilter.construct.GetBoundaryCondition =
        ImageBoundaryConditionPointerType.ownDefault ∧
      NeighborhoodOperatorImageFilter.construct.boundsCondition =
        ZeroFluxNeumannBoundaryCondition) ∧
    (self.overrideAll (policies ++ [i])).GetBoundaryCondition = i ∧
    (self.overrideAll (policies ++ [i])).GetOperator = self.GetOperator ∧
    (self.OverrideBoundaryCondition i).GetOperator = self.GetOperator := by
  refine ⟨⟨rfl, rfl⟩, ?_, ?_, rfl⟩
  · rw [NeighborhoodOperatorImageFilter.overrideAll_append]
    rfl
  · exact NeighborhoodOperatorImageFilter.overrideAll_operator _ self

/-- C12: after `SetOperator(k)` the filter's `GetOperator()` equals `k`; it is the
filter's own copy, so a later change of the caller's operator object does not
change what `GetOperator()` returns; and `SetOperator` leaves the
boundary-condition reference unchanged. -/
theorem SetOperator_stores_own_copy (self : NeighborhoodOperatorImageFilter)
    (k changed : Neighborhood Int) :
    (self.SetOperator k).GetOperator = k ∧
    ((({ callerOperator := k, filter := self } : OperatorClient).callSetOperator).changeCallerOperator
        changed).filter.GetOperator = k ∧
    (self.SetOperator k).GetBoundaryCondition = self.GetBoundaryCondition :=
  ⟨rfl, rfl, rfl⟩

/-- C13, evaluated at the failing input: the default constructor, alone or followed
by any number of `SetBegin` calls, leaves `VectorLength = 0` and
`OffsetMultiplier = 0`, which is not
`VectorLength - 1`, neither in `unsigned int` arithmetic (`2^32 - 1`) nor in the
integers (`-1`), whereas the sibling paths `construct(0)` and `SetVectorLength(0)`
store `2^32 - 1`.  On every path on which a length has been set, by the constructor
with a length or by a `SetVectorLength` call, followed by any sequence of
`SetBegin` and `SetVectorLength` calls, the relation holds (as natural numbers
when `VectorLength ≥ 1`). -/
theorem default_constructor_breaks_OffsetMultiplier_invariant :
    ¬ (VectorImageNeighborhoodAccessorFunctor.constructDefault.runCalls
      []).OffsetMultiplierInvariant ∧
    ¬ (VectorImageNeighborhoodAccessorFunctor.constructDefault.runCalls
      [AccessorCall.setBegin 100]).OffsetMultiplierInvariant ∧
    ((VectorImageNeighborhoodAccessorFunctor.constructDefault.runCalls
        [AccessorCall.setBegin 100]).m_OffsetMultiplier : Int) ≠
      ((VectorImageNeighborhoodAccessorFunctor.constructDefault.runCalls
        [AccessorCall.setBegin 100]).m_VectorLength : Int) - 1 ∧
    (∀ calls : List AccessorCall, (∀ n, AccessorCall.setVectorLength n ∉ calls) →
      ¬ (VectorImageNeighborhoodAccessorFunctor.constructDefault.runCalls
        calls).OffsetMultiplierInvariant) ∧
    (VectorImageNeighborhoodAccessorFunctor.construct 0).OffsetMultiplierInvariant ∧
    (VectorImageNeighborhoodAccessorFunctor.constructDefault.SetVectorLength
      0).OffsetMultiplierInvariant ∧
    (∀ (length : Nat) (calls : List AccessorCall),
      ((VectorImageNeighborhoodAccessorFunctor.construct length).runCalls
        calls).OffsetMultiplierInvariant) ∧
    (∀ calls : List AccessorCall, (∃ n, AccessorCall.setVectorLength n ∈ calls) →
      (VectorImageNeighborhoodAccessorFunctor.constructDefault.runCalls
        calls).OffsetMultiplierInvariant) ∧
    (∀ acc : VectorImageNeighborhoodAccessorFunctor, acc.OffsetMultiplierInvariant →
      1 ≤ acc.m_VectorLength → acc.m_OffsetMultiplier = acc.m_VectorLength - 1) := by
  refine ⟨by decide, by decide, by decide, ?_, by decide, by decide, ?_, ?_, ?_⟩
  · intro calls h hinv
    obtain ⟨hlen, hmul⟩ :=
      VectorImageNeighborhoodAccessorFunctor.runCalls_setBegin_only calls
        VectorImageNeighborhoodAccessorFunctor.constructDefault h
    have h2 := hinv.2
    rw [hlen, hmul] at h2
    revert h2
    decide
  · intro length calls
    apply VectorImageNeighborhoodAccessorFunctor.runCalls_invariant
    exact ⟨Nat.mod_lt _ (by norm_num), rfl⟩
  · intro calls h
    exact VectorImageNeighborhoodAccessorFunctor.runCalls_invariant_of_setVectorLength calls _ h
  · intro acc h h1
    obtain ⟨hlt, hmul⟩ := h
    rw [hmul]
    norm_num at hlt ⊢
    omega

/-- C14: for `n ≥ 1` (an `unsigned int`), after `SetVectorLength(n)` the accessor's
`GetVectorLength()` is `n` and its `OffsetMultiplier` is `n - 1`, whatever the
state before, and `Begin` is unchanged. -/
theorem SetVectorLength_sets_length_and_multiplier
    (acc : VectorImageNeighborhoodAccessorFunctor) (n : Nat) (hn : 1 ≤ n) (hn32 : n < 2 ^ 32) :
    (acc.SetVectorLength n).GetVectorLength = n ∧
    (acc.SetVectorLength n).m_OffsetMultiplier = n - 1 ∧
    (acc.SetVectorLength n).m_Begin = acc.m_Begin := by
  refine ⟨?_, ?_, rfl⟩
  · exact vectorLength_eq n hn32
  · exact offsetMultiplier_eq n hn hn32

/-- Witness of C14: `SetVectorLength(3)` on an accessor of length 7 bound to 100. -/
theorem SetVectorLength_sets_length_and_multiplier_witness :
    (((VectorImageNeighborhoodAccessorFunctor.construct 7).SetBegin 100).SetVectorLength
      3).GetVectorLength = 3 ∧
    (((VectorImageNeighborhoodAccessorFunctor.construct 7).SetBegin 100).SetVectorLength
      3).m_OffsetMultiplier = 3 - 1 ∧
    (((VectorImageNeighborhoodAccessorFunctor.construct 7).SetBegin 100).SetVectorLength
      3).m_Begin = ((VectorImageNeighborhoodAccessorFunctor.construct 7).SetBegin 100).m_Begin :=
  SetVectorLength_sets_length_and_multiplier
    ((VectorImageNeighborhoodAccessorFunctor.construct 7).SetBegin 100) 3 (by decide)
    (by decide)

/-- C15 (as amended): a vector length of 0 is not treated as a configuration
error: the accessor validates nothing, so `SetVectorLength(0)`, from any state,
and construction with length 0 are accepted and yield an accessor whose
`GetVectorLength()` is 0; `SetVectorLength(0)` leaves `Begin` as it was. -/
theorem zero_length_is_accepted (acc : VectorImageNeighborhoodAccessorFunctor) :
    (acc.SetVectorLength 0).GetVectorLength = 0 ∧
    (acc.SetVectorLength 0).m_Begin = acc.m_Begin ∧
    (VectorImageNeighborhoodAccessorFunctor.construct 0).GetVectorLength = 0 ∧
    (VectorImageNeighborhoodAccessorFunctor.construct 0).m_Begin = none :=
  ⟨rfl, rfl, rfl, rfl⟩

/-- Counterexample to C15 as stated: construction with length 0 and
`SetVectorLength(0)` both return an accessor, and it holds the underflowed
`OffsetMultiplier` 4294967295. -/
theorem zero_length_yields_underflowed_multiplier :
    (VectorImageNeighborhoodAccessorFunctor.construct 0).m_OffsetMultiplier = 4294967295 ∧
    ((VectorImageNeighborhoodAccessorFunctor.construct 5).SetVectorLength
      0).m_OffsetMultiplier = 4294967295 ∧
    (VectorImageNeighborhoodAccessorFunctor.constructDefault.SetVectorLength
      0).m_OffsetMultiplier = 4294967295 := by
  refine ⟨by decide, by decide, by decide⟩

/-- C16: after `SetBegin(b)`, from any state (bound or not), `Begin` is `b`, with no
validation, and `VectorLength` and `OffsetMultiplier` are unchanged; binding twice
leaves only the last origin in effect. -/
theorem SetBegin_replaces_origin (acc : VectorImageNeighborhoodAccessorFunctor)
    (b b0 : Int) :
    (acc.SetBegin b).m_Begin = some b ∧
    (acc.SetBegin b).m_VectorLength = acc.m_VectorLength ∧
    (acc.SetBegin b).m_OffsetMultiplier = acc.m_OffsetMultiplier ∧
    (acc.SetBegin b0).SetBegin b = acc.SetBegin b :=
  ⟨rfl, rfl, rfl, rfl⟩

/-! ## Claims on the Fourier series filter -/

/-- C17, evaluated at the failing input: for a requested count of `2^31` and a chain
code of 4 steps the product `numHarmonics * 2` wraps to 0 in `unsigned int`, the
Nyquist test does not fire, and `GenerateData` adds `2^31` harmonics, where
`min(m, numSteps / 2)` is 2 and `2 * n ≤ numSteps` fails; the member itself is
unchanged.  For every requested count below `2^31` the count added is the claimed
one. -/
theorem GenerateData_harmonic_count_wraps {H : Type} (output : FourierSeriesPath H)
    (coefficients : ChainCodePath → Nat → Nat → H) :
    ((ChainCodeToFourierSeriesPathFilter.mk 2147483648).GenerateData
        { m_Start := [0, 0], m_Chain := [[1, 0], [0, 1], [-1, 0], [0, -1]] } output
        coefficients).2.harmonics.length = 2147483648 ∧
    min 2147483648
      ((ChainCodePath.mk [0, 0] [[1, 0], [0, 1], [-1, 0], [0, -1]]).NumberOfSteps / 2) = 2 ∧
    ¬ 2 * 2147483648 ≤ (ChainCodePath.mk [0, 0] [[1, 0], [0, 1], [-1, 0], [0, -1]]).NumberOfSteps ∧
    ((ChainCodeToFourierSeriesPathFilter.mk 2147483648).GenerateData
        { m_Start := [0, 0], m_Chain := [[1, 0], [0, 1], [-1, 0], [0, -1]] } output
        coefficients).1.m_NumberOfHarmonics = 2147483648 ∧
    ∀ (self : ChainCodeToFourierSeriesPathFilter) (input : ChainCodePath),
      self.m_NumberOfHarmonics < 2 ^ 31 →
        (self.GenerateData input output coefficients).1 = self ∧
        (self.m_NumberOfHarmonics ≤ 1 →
          (self.GenerateData input output coefficients).2.harmonics.length = 2) ∧
        (2 ≤ self.m_NumberOfHarmonics →
          (self.GenerateData input output coefficients).2.harmonics.length =
            min self.m_NumberOfHarmonics (input.NumberOfSteps / 2) ∧
          2 * (self.GenerateData input output coefficients).2.harmonics.length ≤
            input.NumberOfSteps) := by
  refine ⟨?_, by decide, by decide, rfl, ?_⟩
  · rw [(ChainCodeToFourierSeriesPathFilter.GenerateData_length _ _ output coefficients).2]
    decide
  · intro self input hm
    have hlen := (ChainCodeToFourierSeriesPathFilter.GenerateData_length self input output
      coefficients).2
    have hadj := ChainCodeToFourierSeriesPathFilter.adjustNumHarmonics_in_range
      self.m_NumberOfHarmonics input.NumberOfSteps hm
    refine ⟨rfl, ?_, ?_⟩
    · intro h
      rw [hlen, hadj.1 h]
    · intro h
      rw [hlen]
      exact hadj.2 h

/-- C19: non-interference between pixels. For `L ≥ 1` and two distinct valid
logical indices `i ≠ j` the physical ranges `[i*L, i*L+L)` and `[j*L, j*L+L)` are
disjoint, and `Get(Begin + j)` returns the same value after `Set(Begin + i, v)` as
before it. -/
theorem Set_does_not_interfere {α : Type} (L i j : Nat) (mem : Memory α) (v : List α)
    (hL : 1 ≤ L) (hL32 : L < 2 ^ 32) (hv : v.length = L)
    (hi : i * L + L ≤ mem.cells.length) (hj : j * L + L ≤ mem.cells.length)
    (hij : i ≠ j) :
    (∀ k, ¬ ((i * L ≤ k ∧ k < i * L + L) ∧ (j * L ≤ k ∧ k < j * L + L))) ∧
    ∃ mem1, ((VectorImageNeighborhoodAccessorFunctor.construct L).SetBegin mem.base).Set mem
        (mem.base + i) v = some mem1 ∧
      ((VectorImageNeighborhoodAccessorFunctor.construct L).SetBegin mem.base).Get mem1
          (mem.base + j) =
        ((VectorImageNeighborhoodAccessorFunctor.construct L).SetBegin mem.base).Get mem
          (mem.base + j) := by
  have hdisj : i * L + L ≤ j * L ∨ j * L + L ≤ i * L := by
    rcases Nat.lt_or_gt_of_ne hij with h | h
    · left
      have := Nat.mul_le_mul_right L (Nat.succ_le_of_lt h)
      rw [Nat.succ_mul] at this
      exact this
    · right
      have := Nat.mul_le_mul_right L (Nat.succ_le_of_lt h)
      rw [Nat.succ_mul] at this
      exact this
  refine ⟨fun k hk => by omega, ?_⟩
  obtain ⟨m1, hset, hb, hlen, hcells⟩ := SetLoop_spec v mem (i * L) L hi (by omega)
  refine ⟨m1, ?_, ?_⟩
  · rw [Set_construct L i mem v hL hL32, hset]
  · have hget := Get_construct L j m1 hL hL32
    rw [hb] at hget
    rw [Get_construct L j mem hL hL32, Memory.readN_base_add mem L (j * L) hj, hget, ← hb,
      Memory.readN_base_add m1 L (j * L) (by omega)]
    congr 1
    apply List.ext_getElem?
    intro c
    by_cases hc : c < L
    · rw [getElem?_take_drop _ _ _ _ hc, getElem?_take_drop _ _ _ _ hc, hcells]
      have hout : ¬ (i * L ≤ j * L + c ∧ j * L + c < i * L + L) := by omega
      rw [if_neg hout]
    · rw [List.getElem?_eq_none (by rw [List.length_take]; omega),
        List.getElem?_eq_none (by rw [List.length_take]; omega)]

/-- Witness of C19: writing pixel 0 of a 3-pixel, 2-component buffer leaves what
`Get` returns for pixel 2. -/
theorem Set_does_not_interfere_witness :
    ∃ mem1, ((VectorImageNeighborhoodAccessorFunctor.construct 2).SetBegin 100).Set
        ({ base := 100, cells := [1, 10, 2, 20, 3, 30] } : Memory Int) (100 + ((0 : Nat) : Int))
        [7, 70] = some mem1 ∧
      ((VectorImageNeighborhoodAccessorFunctor.construct 2).SetBegin 100).Get mem1
          (100 + ((2 : Nat) : Int)) =
        ((VectorImageNeighborhoodAccessorFunctor.construct 2).SetBegin 100).Get
          ({ base := 100, cells := [1, 10, 2, 20, 3, 30] } : Memory Int)
          (100 + ((2 : Nat) : Int)) :=
  (Set_does_not_interfere 2 0 2 ({ base := 100, cells := [1, 10, 2, 20, 3, 30] } : Memory Int)
    [7, 70] (by decide) (by decide) rfl (by decide) (by decide) (by decide)).2

/-- C20: the auxiliary-image slots behave as a bounded array of size
`VAuxDimension`: `GetAuxImage(idx)` is null for every `idx ≥ VAuxDimension`; for
`idx < VAuxDimension`, `GetAuxImage(idx)` after `SetAuxImage(p, idx)` is `p` and
every other slot is unchanged; and `SetAuxImage(p, idx)` with
`idx ≥ VAuxDimension` leaves every slot unchanged. -/
theorem AuxImage_slots_are_a_bounded_array {P : Type} [DecidableEq P] {VAuxDimension : Nat}
    (self : LevelSetVelocityNeighborhoodExtractor P VAuxDimension) (p : Option P) (idx : Nat) :
    (VAuxDimension ≤ idx → self.GetAuxImage idx = none) ∧
    (idx < VAuxDimension →
      (self.SetAuxImage p idx).GetAuxImage idx = p ∧
      ∀ j, j ≠ idx → (self.SetAuxImage p idx).GetAuxImage j = self.GetAuxImage j) ∧
    (VAuxDimension ≤ idx →
      self.SetAuxImage p idx = self ∧
      ∀ j, (self.SetAuxImage p idx).GetAuxImage j = self.GetAuxImage j) := by
  refine ⟨?_, ?_, ?_⟩
  · intro h
    unfold LevelSetVelocityNeighborhoodExtractor.GetAuxImage
    rw [dif_pos h]
  · intro h
    have hnot : ¬ idx ≥ VAuxDimension := by omega
    refine ⟨?_, ?_⟩
    · unfold LevelSetVelocityNeighborhoodExtractor.SetAuxImage
        LevelSetVelocityNeighborhoodExtractor.GetAuxImage
      rw [dif_pos h, dif_neg hnot]
      by_cases heq : self.m_AuxImage ⟨idx, h⟩ = p
      · rw [if_neg (not_not.mpr heq)]
        exact heq
      · rw [if_pos heq]
        simp
    · intro j hj
      unfold LevelSetVelocityNeighborhoodExtractor.SetAuxImage
        LevelSetVelocityNeighborhoodExtractor.GetAuxImage
      rw [dif_pos h]
      by_cases heq : self.m_AuxImage ⟨idx, h⟩ = p
      · rw [if_neg (not_not.mpr heq)]
      · rw [if_pos heq]
        by_cases hjV : j ≥ VAuxDimension
        · rw [dif_pos hjV, dif_pos hjV]
        · rw [dif_neg hjV, dif_neg hjV]
          have hne : (⟨j, Nat.lt_of_not_ge hjV⟩ : Fin VAuxDimension) ≠ ⟨idx, h⟩ := by
            intro he
            exact hj (Fin.mk.inj_iff.mp he)
          simp [Function.update_noteq hne]
  · intro h
    have hnot : ¬ idx < VAuxDimension := by omega
    have hself : self.SetAuxImage p idx = self := by
      unfold LevelSetVelocityNeighborhoodExtractor.SetAuxImage
      rw [dif_neg hnot]
    exact ⟨hself, fun j => by rw [hself]⟩

end itk
